import Mathlib

/-!
Verification of the heuristic extraction pipeline in `src/extract.py`
(card extractor v2.0) against its natural-language specification.

The Python program is shallowly embedded: Python values parsed from JSON
are modelled by the inductive type `PyVal` (dicts become association
lists), text is modelled by `List Char`, machine side effects (HTTP,
clock) are passed in as explicit parameters, and fallible operations
return `Option` / `Except`.  Functions keep the names of their Python
sources where Lean allows it.  `json.loads` / the strict-JSON grammar is
embedded for the integer fragment of JSON (numbers are integers; string
escapes `\" \\ \/ \b \f \n \r \t` are supported, `\uXXXX` is not; the
`\w` class of the key-evidence regex is modelled on the ASCII range);
all claims are stated inside this fragment.
-/

namespace Extract

/-- Parsed JSON-equivalent Python value: `None`, `bool`, `int`, `str`,
`list`, `dict` (a dict is an association list of its items in insertion
order; keys are assumed distinct, as `json.loads` produces). -/
inductive PyVal where
  | none : PyVal
  | bool (b : Bool) : PyVal
  | int (n : Int) : PyVal
  | str (s : String) : PyVal
  | list (xs : List PyVal) : PyVal
  | dict (kvs : List (String × PyVal)) : PyVal

/-- Python truthiness (`bool(v)`): `None`/`False`/`0`/`""`/empty
containers are falsy, everything else truthy. -/
def truthy : PyVal → Bool
  | .none => false
  | .bool b => b
  | .int n => !(n == 0)
  | .str s => !s.isEmpty
  | .list xs => !xs.isEmpty
  | .dict kvs => !kvs.isEmpty

/-- Python `a or b`: `a` if truthy, else `b`. -/
def pyOr (a b : PyVal) : PyVal := if truthy a then a else b

/-- Python `obj.get(k)` on a dict: the value of the first matching key,
`None` when absent. -/
def dictGet (kvs : List (String × PyVal)) (k : String) : PyVal :=
  match kvs.find? (fun kv => kv.1 == k) with
  | some kv => kv.2
  | Option.none => PyVal.none

/-- Decimal digit character for `n < 10` (code 48 + n). -/
def digitChar (n : Nat) : Char := Char.ofNat (48 + n)

/-- Fuel-driven decimal rendering of a natural number (the fuel makes the
recursion structural so that terms evaluate by kernel reduction). -/
def natDigitsAux : Nat → Nat → List Char
  | 0, _ => []
  | fuel + 1, n =>
    if n < 10 then [digitChar n]
    else natDigitsAux fuel (n / 10) ++ [digitChar (n % 10)]

/-- Decimal digits of a natural number, most significant first. -/
def natDigits (n : Nat) : List Char := natDigitsAux (n + 1) n

/-- Decimal rendering of an integer (Python `str(int)`). -/
def intDigits (n : Int) : List Char :=
  if n < 0 then '-' :: natDigits (-n).toNat else natDigits n.toNat

/-- Characters Python's `repr` of a `str` escapes in our model: backslash
and the single quote (the model always renders `repr` of a string with
single quotes). -/
def pyEscapeRepr : List Char → List Char
  | [] => []
  | c :: cs =>
    (if c = '\\' then ['\\', '\\']
     else if c = '\'' then ['\\', '\'']
     else [c]) ++ pyEscapeRepr cs

mutual

/-- Python `str(v)`. `str` of a string is the string itself; containers
render as their `repr`. -/
def pyStr : PyVal → List Char
  | .none => 'N' :: 'o' :: 'n' :: 'e' :: []
  | .bool true => 'T' :: 'r' :: 'u' :: 'e' :: []
  | .bool false => 'F' :: 'a' :: 'l' :: 's' :: 'e' :: []
  | .int n => intDigits n
  | .str s => s.data
  | .list xs => '[' :: pyReprItems xs ++ [']']
  | .dict kvs => '\x7b' :: pyReprMembers kvs ++ ['\x7d']

/-- Python `repr(v)`: strings gain single quotes (with backslash
escaping); other values render as `str`. -/
def pyRepr : PyVal → List Char
  | .str s => '\'' :: pyEscapeRepr s.data ++ ['\'']
  | .none => pyStr .none
  | .bool b => pyStr (.bool b)
  | .int n => pyStr (.int n)
  | .list xs => pyStr (.list xs)
  | .dict kvs => pyStr (.dict kvs)

/-- Comma-separated `repr`s of list elements. -/
def pyReprItems : List PyVal → List Char
  | [] => []
  | [x] => pyRepr x
  | x :: xs => pyRepr x ++ ',' :: ' ' :: pyReprItems xs

/-- Comma-separated `repr`ed key/value pairs of dict items. -/
def pyReprMembers : List (String × PyVal) → List Char
  | [] => []
  | [(k, v)] => pyRepr (.str k) ++ ':' :: ' ' :: pyRepr v
  | (k, v) :: kvs => pyRepr (.str k) ++ ':' :: ' ' :: pyRepr v ++ ',' :: ' ' :: pyReprMembers kvs

end

/-- Python whitespace characters recognised by `int(str)` stripping and
by `\s` of the key-evidence regex (ASCII range). -/
def isPyWsCh (c : Char) : Bool :=
  c = ' ' || c = '\t' || c = '\n' || c = '\r' || c = '\x0b' || c = '\x0c'

/-- Digit-run accumulator: consumes leading decimal digits, folding them
onto `acc`; returns the value and the unconsumed rest. -/
def parseDigitsAcc (acc : Nat) : List Char → Nat × List Char
  | [] => (acc, [])
  | c :: cs =>
    if c.isDigit then parseDigitsAcc (acc * 10 + (c.toNat - 48)) cs
    else (acc, c :: cs)

/-- Python `int(s)` on a string: optional surrounding whitespace, an
optional sign, then one or more decimal digits (digit-separating
underscores are not modelled). -/
def pyParseIntStr (s : List Char) : Option Int :=
  let core := ((s.dropWhile isPyWsCh).reverse.dropWhile isPyWsCh).reverse
  let (neg, ds) :=
    match core with
    | '-' :: rest => (true, rest)
    | '+' :: rest => (false, rest)
    | rest => (false, rest)
  match ds with
  | [] => Option.none
  | c :: cs =>
    if c.isDigit then
      let (v, rest) := parseDigitsAcc (c.toNat - 48) cs
      if rest.isEmpty then some (if neg then -(v : Int) else (v : Int))
      else Option.none
    else Option.none

/-- Python `int(x)`: succeeds on ints, bools and integer-shaped strings,
raises (modelled as `Except.error`) on everything else. -/
def int_exn : PyVal → Except Unit Int
  | .int n => .ok n
  | .bool b => .ok (if b then 1 else 0)
  | .str s =>
    match pyParseIntStr s.data with
    | some n => .ok n
    | Option.none => .error ()
  | _ => .error ()

/-- The `to_int` closure of `normalize_card_obj` (extract.py:279-283):
`try: return int(x) except: return None`. -/
def to_int (v : PyVal) : Option Int :=
  match int_exn v with
  | .ok n => some n
  | .error _ => Option.none

/-- Python `str(v) if v is not None else None` as used for the text
fields of the record. -/
def strOrNone : PyVal → Option String
  | .none => Option.none
  | v => some (String.mk (pyStr v))

/-- The `CardRow` dataclass (extract.py:81-96). -/
structure CardRow where
  id : Option String
  title : Option String
  member : Option String
  rarity : Option String
  ap_cost : Option Int
  smile : Option Int
  pure : Option Int
  cool : Option Int
  mental : Option Int
  skill_code : Option String
  center_skill_code : Option String
  center_trait_code : Option String
  source_asset : String
  last_seen : String
deriving DecidableEq

/-- The Record Normalizer `normalize_card_obj` (extract.py:268-300).
`obj` is the dict, `source_asset` the provenance URL, and `last_seen`
the caller-supplied UTC timestamp (the Python function reads the clock;
the embedding passes the stamp in). -/
def normalize_card_obj (obj : List (String × PyVal)) (source_asset : String)
    (last_seen : String) : CardRow :=
  let title := pyOr (dictGet obj "title") (pyOr (dictGet obj "name") (dictGet obj "cardName"))
  let member := pyOr (dictGet obj "member") (pyOr (dictGet obj "idol") (dictGet obj "character"))
  let rarity := pyOr (dictGet obj "rarity") (pyOr (dictGet obj "rar") (dictGet obj "type"))
  let ap_cost := pyOr (dictGet obj "ap_cost") (pyOr (dictGet obj "ap") (dictGet obj "cost"))
  let smile := dictGet obj "smile"
  let pure := dictGet obj "pure"
  let cool := dictGet obj "cool"
  let mental := pyOr (dictGet obj "mental") (dictGet obj "hp")
  let skill_code := pyOr (dictGet obj "skill_code") (pyOr (dictGet obj "skill") (dictGet obj "skillText"))
  let center_skill_code := pyOr (dictGet obj "center_skill_code") (dictGet obj "centerSkill")
  let center_trait_code := pyOr (dictGet obj "center_trait_code") (dictGet obj "centerTrait")
  { id := strOrNone (dictGet obj "id")
    title := strOrNone title
    member := strOrNone member
    rarity := strOrNone rarity
    ap_cost := to_int ap_cost
    smile := to_int smile
    pure := to_int pure
    cool := to_int cool
    mental := to_int mental
    skill_code := strOrNone skill_code
    center_skill_code := strOrNone center_skill_code
    center_trait_code := strOrNone center_trait_code
    source_asset := source_asset
    last_seen := last_seen }

/-- Substring test, Python `needle in hay` on strings. -/
def containsSub (needle hay : List Char) : Bool :=
  needle.isPrefixOf hay ||
    match hay with
    | [] => false
    | _ :: t => containsSub needle t

/-- SKILL_DSL_HINTS (extract.py:68-71). -/
def SKILL_DSL_HINTS : List String :=
  ["ap_up (", "score_up (", "vol_buff (", "score_buff (",
   "vol_up (", "reset ()", "splice ()", "appeal_up (", "ap_reduce (", "cooltime_reduce ("]

/-- MEMBER_HINTS (extract.py:72). -/
def MEMBER_HINTS : List String :=
  ["花帆", "さやか", "梢", "綴理", "瑠璃乃", "慈", "吟子", "小鈴", "姫芽", "セラス", "泉"]

/-- `_contains_skill_hint` (extract.py:302-308): lowercase `str(v)` and
test it for any DSL hint substring. -/
def _contains_skill_hint (v : PyVal) : Bool :=
  let s_lower := (pyStr v).map Char.toLower
  SKILL_DSL_HINTS.any (fun h => containsSub h.data s_lower)

/-- Member-name hint test on one value (extract.py:320): string values
containing one of the MEMBER_HINTS. -/
def memberHintVal : PyVal → Bool
  | .str s => MEMBER_HINTS.any (fun m => containsSub m.data s.data)
  | _ => false

/-- The Record Classifier's score (extract.py:313-327). -/
def card_score (obj : List (String × PyVal)) : Nat :=
  let keys := obj.map Prod.fst
  let vals := obj.map Prod.snd
  let title_like := keys.contains "title" || keys.contains "name" || keys.contains "cardName"
  let member_like := keys.contains "member" || keys.contains "idol" || keys.contains "character"
  let stats_like := keys.contains "smile" || keys.contains "pure" || keys.contains "cool" ||
    keys.contains "mental" || keys.contains "hp"
  let skill_like := keys.contains "skill_code" || keys.contains "skill" ||
    keys.contains "skillText" || keys.contains "centerSkill"
  let hint_like := vals.any _contains_skill_hint
  let member_hint := vals.any memberHintVal
  (if title_like then 2 else 0) + (if member_like then 2 else 0) +
    (if stats_like then 1 else 0) + (if skill_like then 1 else 0) +
    (if hint_like then 1 else 0) + (if member_hint then 1 else 0)

/-- `_looks_like_card_obj` (extract.py:310-328): an empty dict is
rejected outright, otherwise the score is compared to the fixed
threshold 3. -/
def _looks_like_card_obj (obj : List (String × PyVal)) : Bool :=
  if obj.isEmpty then false else decide (3 ≤ card_score obj)

/-- Dict payload of a value, when it is a dict (`isinstance(x, dict)`). -/
def asDict : PyVal → Option (List (String × PyVal))
  | .dict kvs => some kvs
  | _ => Option.none

mutual

/-- The Record Classifier's walk `extract_card_rows_from_any`
(extract.py:330-355).  The Python function appends to a mutable `rows`
list; the embedding threads `rows` explicitly and returns its final
value.  In the homogeneous-list branch, `hit` is the count of
qualifying dict elements, and the walk appends the normalization of
exactly those elements and returns without recursing. -/
def extract_card_rows_from_any (value : PyVal) (source_asset last_seen : String)
    (rows : List CardRow) : List CardRow :=
  match value with
  | .dict kvs =>
    let rows1 :=
      if _looks_like_card_obj kvs then rows ++ [normalize_card_obj kvs source_asset last_seen]
      else rows
    extractValsRows kvs source_asset last_seen rows1
  | .list xs =>
    let dicts := xs.filterMap asDict
    let hit := (dicts.filter _looks_like_card_obj).length
    if 3 ≤ dicts.length ∧ max 3 (dicts.length / 3) ≤ hit then
      rows ++ (dicts.filter _looks_like_card_obj).map
        (fun d => normalize_card_obj d source_asset last_seen)
    else
      extractListRows xs source_asset last_seen rows
  | _ => rows

/-- Walk over the elements of a list value (`for v in value`). -/
def extractListRows : List PyVal → String → String → List CardRow → List CardRow
  | [], _, _, rows => rows
  | v :: vs, source_asset, last_seen, rows =>
    extractListRows vs source_asset last_seen
      (extract_card_rows_from_any v source_asset last_seen rows)

/-- Walk over the values of a dict (`for v in value.values()`). -/
def extractValsRows : List (String × PyVal) → String → String → List CardRow → List CardRow
  | [], _, _, rows => rows
  | (_, v) :: kvs, source_asset, last_seen, rows =>
    extractValsRows kvs source_asset last_seen
      (extract_card_rows_from_any v source_asset last_seen rows)

end

/-- The composite dedup key (extract.py:462). -/
def dedup_key (r : CardRow) :
    Option String × Option String × Option String × Option String × Option Int :=
  (r.id, r.title, r.member, r.rarity, r.ap_cost)

/-- The dedup loop of `main` (extract.py:458-466): `seen` is the set of
keys already encountered, `acc` the `unique_rows` accumulator. -/
def dedupGo (seen : List (Option String × Option String × Option String × Option String × Option Int))
    (acc : List CardRow) : List CardRow → List CardRow
  | [] => acc
  | r :: rs =>
    if dedup_key r ∈ seen then dedupGo seen acc rs
    else dedupGo (dedup_key r :: seen) (acc ++ [r]) rs

/-- Merge/Dedup: keep rows whose composite key was not seen before. -/
def dedup_rows (rows : List CardRow) : List CardRow := dedupGo [] [] rows

/-- Specification-side characterization of Merge/Dedup: keep the head
and drop every later row with an equal key, recursively. -/
def keepFirst : List CardRow → List CardRow
  | [] => []
  | r :: rs => r :: keepFirst (rs.filter (fun x => !(dedup_key x = dedup_key r)))
termination_by l => l.length
decreasing_by
  simp only [List.length_cons]
  exact Nat.lt_succ_of_le (List.length_filter_le _ _)

/-- Lexicographic code-point order on character lists, the order Python
uses to compare strings. -/
def charListLe : List Char → List Char → Bool
  | [], _ => true
  | _ :: _, [] => false
  | a :: as', b :: bs' =>
    if a.toNat < b.toNat then true
    else if b.toNat < a.toNat then false
    else charListLe as' bs'

/-- Python string comparison `a <= b` by code points. -/
def pyStrLe (a b : String) : Bool := charListLe a.data b.data

/-- Insert into a sorted list, keeping existing equal-or-smaller
elements in front (stable insertion). -/
def pyInsertSorted (x : String) : List String → List String
  | [] => [x]
  | y :: ys => if pyStrLe y x then y :: pyInsertSorted x ys else x :: y :: ys

/-- Python `sorted` on a list of strings (modelled by stable insertion
sort over the code-point order). -/
def pySortedStrings : List String → List String
  | [] => []
  | x :: xs => pyInsertSorted x (pySortedStrings xs)

/-- External-JSON selection policy of `main` (extract.py:400-411):
partition the discovered URL set by the `same_origin` predicate, sort
each part, and truncate the cross-origin part to its first 50 entries
when it is longer than 50.  Both parts are then fetched, so the second
component is exactly the list of cross-origin URLs a run fetches. -/
def select_external_json (same_origin : String → Bool) (ext_json_urls : List String) :
    List String × List String :=
  let pri_urls := pySortedStrings (ext_json_urls.filter (fun u => same_origin u))
  let sec_urls := pySortedStrings (ext_json_urls.filter (fun u => !same_origin u))
  let sec_urls := if 50 < sec_urls.length then sec_urls.take 50 else sec_urls
  (pri_urls, sec_urls)

/-- Scanner state of `_balanced_slice` (extract.py:223-239): nesting
depth, whether inside a string literal, whether the previous in-string
character was an unconsumed backslash, and the active quote character. -/
structure BSSt where
  depth : Int
  in_str : Bool
  esc : Bool
  quote : Char
deriving DecidableEq

/-- Initial scanner state (`depth = 0`, not in a string; the initial
`quote` value is irrelevant because `quote` is read only while
`in_str`). -/
def bsInit : BSSt := ⟨0, false, false, ' '⟩

/-- One character step of the `_balanced_slice` loop, without the early
return. -/
def bsStep (open_ch close_ch : Char) (st : BSSt) (ch : Char) : BSSt :=
  if st.in_str then
    if st.esc then { st with esc := false }
    else if ch = '\\' then { st with esc := true }
    else if ch = st.quote then { st with in_str := false }
    else st
  else
    if ch = '\'' ∨ ch = '"' then { st with in_str := true, quote := ch }
    else if ch = open_ch then { st with depth := st.depth + 1 }
    else if ch = close_ch then { st with depth := st.depth - 1 }
    else st

/-- Return condition of the loop: an unquoted closing character that
brings the depth from 1 back to 0. -/
def bsRet (close_ch : Char) (st : BSSt) (ch : Char) : Bool :=
  !st.in_str && ch == close_ch && st.depth == 1

/-- The scanning loop of `_balanced_slice`: `acc` holds the consumed
prefix `src[start_idx:i]`; on the return condition the slice through
the current character is produced, and exhausting the text yields
`none` (the "unterminated" signal). -/
def bsGo (open_ch close_ch : Char) (st : BSSt) (acc : List Char) :
    List Char → Option (List Char)
  | [] => Option.none
  | ch :: rest =>
    if bsRet close_ch st ch then some (acc ++ [ch])
    else bsGo open_ch close_ch (bsStep open_ch close_ch st ch) (acc ++ [ch]) rest

/-- `_balanced_slice` (extract.py:223-239). -/
def _balanced_slice (src : List Char) (start_idx : Nat) (open_ch close_ch : Char) :
    Option (List Char) :=
  bsGo open_ch close_ch bsInit [] (src.drop start_idx)

/-- Scanner state after the first `n` characters of `cs`, starting from
`st` (pure iteration of `bsStep`). -/
def bsStateAt (open_ch close_ch : Char) (st : BSSt) (cs : List Char) (n : Nat) : BSSt :=
  (cs.take n).foldl (bsStep open_ch close_ch) st

/-- Whether the scan of `cs` from `st` triggers the depth-zero return at
position `i`. -/
def bsCloseEventAt (open_ch close_ch : Char) (st : BSSt) (cs : List Char) (i : Nat) : Bool :=
  decide (i < cs.length) &&
    bsRet close_ch (bsStateAt open_ch close_ch st cs i) (cs.getD i ' ')

/-- Escaping applied by the JSON serializer that generates the valid
JSON texts the claims quantify over: quote and backslash are escaped,
all other characters pass through. -/
def escapeJson : List Char → List Char
  | [] => []
  | c :: cs =>
    (if c = '"' then ['\\', '"']
     else if c = '\\' then ['\\', '\\']
     else [c]) ++ escapeJson cs

mutual

/-- Compact strict-JSON serialization of a value (the generator of
"valid strict-JSON text" in the integer fragment). -/
def serializeVal : PyVal → List Char
  | .none => "null".data
  | .bool true => "true".data
  | .bool false => "false".data
  | .int n => intDigits n
  | .str s => '"' :: escapeJson s.data ++ ['"']
  | .list xs => '[' :: serializeItems xs ++ [']']
  | .dict kvs => '\x7b' :: serializeMembers kvs ++ ['\x7d']

/-- Comma-separated serialization of array elements. -/
def serializeItems : List PyVal → List Char
  | [] => []
  | [x] => serializeVal x
  | x :: xs => serializeVal x ++ ',' :: serializeItems xs

/-- Comma-separated serialization of object members. -/
def serializeMembers : List (String × PyVal) → List Char
  | [] => []
  | [(k, v)] => '"' :: escapeJson k.data ++ '"' :: ':' :: serializeVal v
  | (k, v) :: kvs =>
    '"' :: escapeJson k.data ++ '"' :: ':' :: serializeVal v ++ ',' :: serializeMembers kvs

end

/-- JSON insignificant whitespace (as accepted by `json.loads`). -/
def isJsonWs (c : Char) : Bool := c = ' ' || c = '\t' || c = '\n' || c = '\r'

/-- Skip insignificant whitespace. -/
def skipWs (cs : List Char) : List Char := cs.dropWhile isJsonWs

/-- Decode one JSON string escape character (`\uXXXX` is outside the
modelled fragment). -/
def unescapeJson (c : Char) : Option Char :=
  if c = '"' then some '"'
  else if c = '\\' then some '\\'
  else if c = '/' then some '/'
  else if c = 'n' then some '\n'
  else if c = 't' then some '\t'
  else if c = 'r' then some '\r'
  else if c = 'b' then some '\x08'
  else if c = 'f' then some '\x0c'
  else Option.none

/-- Parse the body of a JSON string after its opening quote, strict
mode: raw control characters are rejected. -/
def parseStringBody : List Char → Option (List Char × List Char)
  | [] => Option.none
  | c :: cs =>
    if c = '"' then some ([], cs)
    else if c = '\\' then
      match cs with
      | [] => Option.none
      | e :: cs2 =>
        match unescapeJson e with
        | some d =>
          match parseStringBody cs2 with
          | some (s, r) => some (d :: s, r)
          | Option.none => Option.none
        | Option.none => Option.none
    else if c.toNat < 32 then Option.none
    else
      match parseStringBody cs with
      | some (s, r) => some (c :: s, r)
      | Option.none => Option.none

/-- Parse a JSON number of the integer fragment: optional minus sign,
then decimal digits. -/
def parseNumber : List Char → Option (PyVal × List Char)
  | [] => Option.none
  | c :: cs =>
    if c = '-' then
      match cs with
      | [] => Option.none
      | d :: cs2 =>
        if d.isDigit then
          let p := parseDigitsAcc (d.toNat - 48) cs2
          some (.int (-(p.1 : Int)), p.2)
        else Option.none
    else if c.isDigit then
      let p := parseDigitsAcc (c.toNat - 48) cs
      some (.int ((p.1 : Nat) : Int), p.2)
    else Option.none

mutual

/-- Strict-JSON recursive-descent parser on the integer fragment
(embedding of `json.loads`, minus floats and `\uXXXX`): parses one
value and returns it with the unconsumed rest.  The fuel only bounds
the nesting of recursive calls and makes evaluation structural. -/
def parseVal : Nat → List Char → Option (PyVal × List Char)
  | 0, _ => Option.none
  | fuel + 1, cs =>
    match skipWs cs with
    | [] => Option.none
    | c :: rest =>
      if c = 'n' then
        match rest with
        | 'u' :: 'l' :: 'l' :: r => some (.none, r)
        | _ => Option.none
      else if c = 't' then
        match rest with
        | 'r' :: 'u' :: 'e' :: r => some (.bool true, r)
        | _ => Option.none
      else if c = 'f' then
        match rest with
        | 'a' :: 'l' :: 's' :: 'e' :: r => some (.bool false, r)
        | _ => Option.none
      else if c = '"' then
        match parseStringBody rest with
        | some (s, r) => some (.str (String.mk s), r)
        | Option.none => Option.none
      else if c = '[' then
        if (skipWs rest).headD ' ' = ']' then some (.list [], (skipWs rest).tail)
        else parseItems fuel rest []
      else if c = '\x7b' then
        if (skipWs rest).headD ' ' = '\x7d' then some (.dict [], (skipWs rest).tail)
        else parseMembers fuel rest []
      else parseNumber (c :: rest)

/-- Parse the elements of a non-empty JSON array after its `[`. -/
def parseItems : Nat → List Char → List PyVal → Option (PyVal × List Char)
  | 0, _, _ => Option.none
  | fuel + 1, cs, acc =>
    match parseVal fuel cs with
    | some (v, r) =>
      if (skipWs r).headD ' ' = ',' then parseItems fuel (skipWs r).tail (acc ++ [v])
      else if (skipWs r).headD ' ' = ']' then some (.list (acc ++ [v]), (skipWs r).tail)
      else Option.none
    | Option.none => Option.none

/-- Parse the members of a non-empty JSON object after its `{`. -/
def parseMembers : Nat → List Char → List (String × PyVal) → Option (PyVal × List Char)
  | 0, _, _ => Option.none
  | fuel + 1, cs, acc =>
    if (skipWs cs).headD ' ' = '"' then
      match parseStringBody (skipWs cs).tail with
      | some (k, r1) =>
        if (skipWs r1).headD ' ' = ':' then
          match parseVal fuel (skipWs r1).tail with
          | some (v, r3) =>
            if (skipWs r3).headD ' ' = ',' then
              parseMembers fuel (skipWs r3).tail (acc ++ [(String.mk k, v)])
            else if (skipWs r3).headD ' ' = '\x7d' then
              some (.dict (acc ++ [(String.mk k, v)]), (skipWs r3).tail)
            else Option.none
          | Option.none => Option.none
        else Option.none
      | Option.none => Option.none
    else Option.none

end

/-- Top-level strict-JSON parse (`json.loads`): one value surrounded by
nothing but whitespace. -/
def parseJsonText (cs : List Char) : Option PyVal :=
  match parseVal (cs.length + 1) cs with
  | some (v, rest) => if (skipWs rest).isEmpty then some v else Option.none
  | Option.none => Option.none

/-- Character class `[\w\-\: ]` of the key-evidence regex
(extract.py:257), with `\w` modelled on the ASCII range. -/
def isKeyClassCh (c : Char) : Bool :=
  c.isAlphanum || c = '_' || c = '-' || c = ':' || c = ' '

/-- Whether a run of characters (each either regex-`\s` or in the key
class) splits as `\s*` then `[\w\-\: ]+`. -/
def splitWsClass (run : List Char) : Bool :=
  (List.range (run.length + 1)).any (fun k =>
    (run.take k).all isPyWsCh && !(run.drop k).isEmpty && (run.drop k).all isKeyClassCh)

/-- Whether the regex `"\s*[\w\-\: ]+"\s*:` matches at the start of the
given suffix. -/
def matchKeyAt : List Char → Bool
  | '"' :: rest =>
    let run := rest.takeWhile (fun c => isPyWsCh c || isKeyClassCh c)
    match rest.dropWhile (fun c => isPyWsCh c || isKeyClassCh c) with
    | '"' :: r2 =>
      splitWsClass run &&
        (match r2.dropWhile isPyWsCh with
         | ':' :: _ => true
         | _ => false)
    | _ => false
  | _ => false

/-- `re.search` of the key-evidence pattern: a match at some position. -/
def hasKeyEvidence : List Char → Bool
  | [] => false
  | c :: rest => matchKeyAt (c :: rest) || hasKeyEvidence rest

/-- Python `s.count(c)` for a single character. -/
def countChar (c : Char) (cs : List Char) : Nat :=
  (cs.filter (fun x => x == c)).length

/-- Strategy (b) of the Candidate Reader, `iter_candidate_jsons_from_js`
(extract.py:251-262): for every `[` position, take the balanced slice,
require a non-empty slice containing at least one `{` and showing
quoted-key evidence, then strict-JSON-parse it; failures are skipped. -/
def candidate_jsons_strategy_b (js_text : List Char) : List PyVal :=
  ((List.range js_text.length).filter (fun i => js_text.getD i ' ' == '[')).filterMap
    (fun i =>
      match _balanced_slice js_text i '[' ']' with
      | Option.none => Option.none
      | some sliced =>
        if sliced.isEmpty then Option.none
        else if countChar '\x7b' sliced == 0 then Option.none
        else if !hasKeyEvidence sliced then Option.none
        else parseJsonText sliced)

/-- Modelled from the spec: step (1) of the Quasi-JSON Normalizer (the
normalizer is absent from src/extract.py, which carries only candidate
strategies (a) and (b)); strips `/* ... */` block comments.  The fuel
equals the text length and only makes the recursion structural. -/
def stripBlockCommentsGo : Nat → Bool → List Char → List Char
  | 0, _, cs => cs
  | _ + 1, _, [] => []
  | fuel + 1, false, '/' :: '*' :: rest => stripBlockCommentsGo fuel true rest
  | fuel + 1, false, c :: rest => c :: stripBlockCommentsGo fuel false rest
  | fuel + 1, true, '*' :: '/' :: rest => stripBlockCommentsGo fuel false rest
  | fuel + 1, true, _ :: rest => stripBlockCommentsGo fuel true rest

/-- JavaScript identifier characters, for bare-key detection. -/
def isIdentCh (c : Char) : Bool := c.isAlphanum || c = '_' || c = '$'

/-- Modelled from the spec: step (2) of the Quasi-JSON Normalizer —
quote bare identifier keys that follow `{`, `[` or `,` (allowing
whitespace) and are followed by `:`. -/
def quoteBareKeys : Nat → List Char → List Char
  | 0, cs => cs
  | _ + 1, [] => []
  | fuel + 1, c :: rest =>
    if c = '\x7b' ∨ c = '[' ∨ c = ',' then
      let ws1 := rest.takeWhile isPyWsCh
      let r1 := rest.dropWhile isPyWsCh
      let ident := r1.takeWhile isIdentCh
      let r2 := r1.dropWhile isIdentCh
      let ws2 := r2.takeWhile isPyWsCh
      let r3 := r2.dropWhile isPyWsCh
      match ident, r3 with
      | _ :: _, ':' :: r4 =>
        c :: ws1 ++ '"' :: ident ++ '"' :: ws2 ++ ':' :: quoteBareKeys fuel r4
      | _, _ => c :: quoteBareKeys fuel rest
    else c :: quoteBareKeys fuel rest

/-- Modelled from the spec: step (3) of the Quasi-JSON Normalizer —
rewrite the boolean shorthands `!0`/`!1` and the `undefined`/`NaN`
tokens to their JSON equivalents (`true`/`false`/`null`). -/
def rewriteTokens : Nat → List Char → List Char
  | 0, cs => cs
  | _ + 1, [] => []
  | fuel + 1, '!' :: '0' :: rest => "true".data ++ rewriteTokens fuel rest
  | fuel + 1, '!' :: '1' :: rest => "false".data ++ rewriteTokens fuel rest
  | fuel + 1, 'u' :: 'n' :: 'd' :: 'e' :: 'f' :: 'i' :: 'n' :: 'e' :: 'd' :: rest =>
    "null".data ++ rewriteTokens fuel rest
  | fuel + 1, 'N' :: 'a' :: 'N' :: rest => "null".data ++ rewriteTokens fuel rest
  | fuel + 1, c :: rest => c :: rewriteTokens fuel rest

/-- Escape double quotes inside a converted string body. -/
def escapeDq : List Char → List Char
  | [] => []
  | c :: cs => (if c = '"' then ['\\', '"'] else [c]) ++ escapeDq cs

/-- Modelled from the spec: step (4) of the Quasi-JSON Normalizer —
convert single-quoted string values following `:`, `,` or `[` to
double-quoted ones, escaping interior double quotes.  `prevSig` is the
previous non-whitespace character. -/
def convertSingleQuotes : Nat → Char → List Char → List Char
  | 0, _, cs => cs
  | _ + 1, _, [] => []
  | fuel + 1, prevSig, '\'' :: rest =>
    if prevSig = ':' ∨ prevSig = ',' ∨ prevSig = '[' then
      let body := rest.takeWhile (fun c => !(c == '\''))
      match rest.dropWhile (fun c => !(c == '\'')) with
      | '\'' :: r2 => '"' :: escapeDq body ++ '"' :: convertSingleQuotes fuel '"' r2
      | _ => '\'' :: convertSingleQuotes fuel '\'' rest
    else '\'' :: convertSingleQuotes fuel prevSig rest
  | fuel + 1, prevSig, c :: rest =>
    c :: convertSingleQuotes fuel (if isPyWsCh c then prevSig else c) rest

/-- Modelled from the spec: step (5) of the Quasi-JSON Normalizer —
remove trailing commas before a closing bracket or brace. -/
def removeTrailingCommas : Nat → List Char → List Char
  | 0, cs => cs
  | _ + 1, [] => []
  | fuel + 1, ',' :: rest =>
    (match rest.dropWhile isPyWsCh with
     | ']' :: _ => removeTrailingCommas fuel rest
     | '\x7d' :: _ => removeTrailingCommas fuel rest
     | _ => ',' :: removeTrailingCommas fuel rest)
  | fuel + 1, c :: rest => c :: removeTrailingCommas fuel rest

/-- Modelled from the spec: the Quasi-JSON Normalizer (spec section 4.2,
absent from src/extract.py) — the five rewriting steps applied in the
fixed order (1) strip block comments, (2) quote bare keys, (3) rewrite
shorthand tokens, (4) convert single-quoted values, (5) remove trailing
commas. -/
def normalize_quasi_json (cs : List Char) : List Char :=
  let s1 := stripBlockCommentsGo (cs.length + 1) false cs
  let s2 := quoteBareKeys (s1.length + 1) s1
  let s3 := rewriteTokens (s2.length + 1) s2
  let s4 := convertSingleQuotes (s3.length + 1) ' ' s3
  removeTrailingCommas (s4.length + 1) s4

/-- Specification-side alias selection: the value of the first alias
whose value is truthy; when no alias is truthy, the value of the last
alias (this is what a Python `or` chain of `.get` calls computes). -/
def firstTruthyAlias (obj : List (String × PyVal)) (ks : List String) : PyVal :=
  match ks.find? (fun k => truthy (dictGet obj k)) with
  | some k => dictGet obj k
  | Option.none =>
    match ks.getLast? with
    | some k => dictGet obj k
    | Option.none => PyVal.none

/-- Accumulator view of a decimal-digit fold (the computation performed
by `parseDigitsAcc` on a digit run). -/
def digitsVal (acc : Nat) (ds : List Char) : Nat :=
  ds.foldl (fun a c => a * 10 + (c.toNat - 48)) acc

mutual

/-- Strings appearing in a value are free of raw control characters, so
that the value's serialization is strict JSON. -/
def pvSafe : PyVal → Bool
  | .none => true
  | .bool _ => true
  | .int _ => true
  | .str s => s.data.all (fun c => 32 ≤ c.toNat)
  | .list xs => pvListSafe xs
  | .dict kvs => pvMembersSafe kvs

/-- Safety of all elements of a list value. -/
def pvListSafe : List PyVal → Bool
  | [] => true
  | x :: xs => pvSafe x && pvListSafe xs

/-- Safety of all keys and values of a dict value. -/
def pvMembersSafe : List (String × PyVal) → Bool
  | [] => true
  | (k, v) :: kvs => k.data.all (fun c => 32 ≤ c.toNat) && pvSafe v && pvMembersSafe kvs

end

mutual

/-- Fuel needed by `parseVal` to parse the serialization of a value
(one unit per parser-to-parser recursive call). -/
def pvFuel : PyVal → Nat
  | .none => 1
  | .bool _ => 1
  | .int _ => 1
  | .str _ => 1
  | .list xs => 1 + pvItemsFuel xs
  | .dict kvs => 1 + pvMembersFuel kvs

/-- Fuel needed by `parseItems` for a list of elements. -/
def pvItemsFuel : List PyVal → Nat
  | [] => 0
  | x :: xs => 1 + pvFuel x + pvItemsFuel xs

/-- Fuel needed by `parseMembers` for a list of members. -/
def pvMembersFuel : List (String × PyVal) → Nat
  | [] => 0
  | (_, v) :: kvs => 1 + pvFuel v + pvMembersFuel kvs

end

/-- A continuation after a serialized value that no longer parse can
absorb: end of text, or a separator / closer character. -/
def goodBreak (rest : List Char) : Prop :=
  rest = [] ∨ ∃ c cs, rest = c :: cs ∧ (c = ',' ∨ c = ']' ∨ c = '\x7d')

/-! Theorems. -/

/-- C2: the Quasi-JSON Normalizer applied to `{id:1, ok:!0, bad:undefined,}`
yields strict-JSON-parseable text whose parse is structurally equal to
the object with id 1, ok true and bad null. -/
theorem quasi_json_normalizer_example :
    parseJsonText (normalize_quasi_json "\x7bid:1, ok:!0, bad:undefined,\x7d".data) =
      some (PyVal.dict [("id", PyVal.int 1), ("ok", PyVal.bool true), ("bad", PyVal.none)]) := by
  rfl

theorem firstTruthy_two (obj : List (String × PyVal)) (k1 k2 : String) :
    firstTruthyAlias obj [k1, k2] = pyOr (dictGet obj k1) (dictGet obj k2) := by
  unfold firstTruthyAlias pyOr
  cases h1 : truthy (dictGet obj k1) <;> cases h2 : truthy (dictGet obj k2) <;>
    simp [List.find?, h1, h2]

theorem firstTruthy_three (obj : List (String × PyVal)) (k1 k2 k3 : String) :
    firstTruthyAlias obj [k1, k2, k3] =
      pyOr (dictGet obj k1) (pyOr (dictGet obj k2) (dictGet obj k3)) := by
  unfold firstTruthyAlias pyOr
  cases h1 : truthy (dictGet obj k1) <;> cases h2 : truthy (dictGet obj k2) <;>
    cases h3 : truthy (dictGet obj k3) <;> simp [List.find?, h1, h2, h3]

/-- C3 (counterexample): on the mapping with ap_cost 0 and ap 5, the
Record Normalizer yields ap_cost 5 — the present falsy value 0 of the
first alias does not win, refuting first-non-absent-alias selection. -/
theorem record_normalizer_falsy_counterexample :
    (normalize_card_obj [("ap_cost", PyVal.int 0), ("ap", PyVal.int 5)] "s" "t").ap_cost = some 5 ∧
    (normalize_card_obj [("ap_cost", PyVal.int 0), ("ap", PyVal.int 5)] "s" "t").ap_cost ≠ some 0 := by
  constructor
  · rfl
  · intro h
    simp [normalize_card_obj, to_int, int_exn, pyOr, truthy, dictGet, List.find?] at h

/-- C3 (amended): for every input mapping, the Record Normalizer selects
each aliased canonical field as the first alias (in the fixed per-field
priority order) whose value is truthy, falling back to the last alias's
value when none is truthy — Python `or`-chain semantics, under which a
present falsy value (0, empty string, None) is skipped. -/
theorem record_normalizer_first_truthy (obj : List (String × PyVal)) (s t : String) :
    (normalize_card_obj obj s t).title = strOrNone (firstTruthyAlias obj ["title", "name", "cardName"]) ∧
    (normalize_card_obj obj s t).member = strOrNone (firstTruthyAlias obj ["member", "idol", "character"]) ∧
    (normalize_card_obj obj s t).rarity = strOrNone (firstTruthyAlias obj ["rarity", "rar", "type"]) ∧
    (normalize_card_obj obj s t).ap_cost = to_int (firstTruthyAlias obj ["ap_cost", "ap", "cost"]) ∧
    (normalize_card_obj obj s t).mental = to_int (firstTruthyAlias obj ["mental", "hp"]) ∧
    (normalize_card_obj obj s t).skill_code = strOrNone (firstTruthyAlias obj ["skill_code", "skill", "skillText"]) ∧
    (normalize_card_obj obj s t).center_skill_code = strOrNone (firstTruthyAlias obj ["center_skill_code", "centerSkill"]) ∧
    (normalize_card_obj obj s t).center_trait_code = strOrNone (firstTruthyAlias obj ["center_trait_code", "centerTrait"]) := by
  refine ⟨?_, ?_, ?_, ?_, ?_, ?_, ?_, ?_⟩ <;>
    simp [normalize_card_obj, firstTruthy_two, firstTruthy_three]

/-- C8: the Record Classifier scores any mapping with keys title, member
and smile at least 3 (title-like +2, member-like +2, stat-like +1), so
it qualifies; a mapping with only keys foo and bar whose values carry
neither DSL nor member-name hints scores 0 and is rejected. -/
theorem classifier_scoring (v1 v2 v3 w1 w2 : PyVal) :
    (3 ≤ card_score [("title", v1), ("member", v2), ("smile", v3)] ∧
      _looks_like_card_obj [("title", v1), ("member", v2), ("smile", v3)] = true) ∧
    (_contains_skill_hint w1 = false → _contains_skill_hint w2 = false →
      memberHintVal w1 = false → memberHintVal w2 = false →
      card_score [("foo", w1), ("bar", w2)] = 0 ∧
      _looks_like_card_obj [("foo", w1), ("bar", w2)] = false) := by
  constructor
  · have hsc : 3 ≤ card_score [("title", v1), ("member", v2), ("smile", v3)] := by
      simp only [card_score, List.map_cons, List.map_nil]
      norm_num [List.contains]
      split_ifs <;> omega
    refine ⟨hsc, ?_⟩
    simp [_looks_like_card_obj, hsc]
  · intro h1 h2 h3 h4
    have hsc : card_score [("foo", w1), ("bar", w2)] = 0 := by
      simp [card_score, List.contains, h1, h2, h3, h4]
    refine ⟨hsc, ?_⟩
    simp [_looks_like_card_obj, hsc]

/-- Witness for C8 at concrete values. -/
theorem classifier_scoring_witness :
    (3 ≤ card_score [("title", PyVal.str "T"), ("member", PyVal.str "M"), ("smile", PyVal.int 1)] ∧
      _looks_like_card_obj [("title", PyVal.str "T"), ("member", PyVal.str "M"), ("smile", PyVal.int 1)] = true) ∧
    (card_score [("foo", PyVal.int 1), ("bar", PyVal.str "z")] = 0 ∧
      _looks_like_card_obj [("foo", PyVal.int 1), ("bar", PyVal.str "z")] = false) := by
  refine ⟨(classifier_scoring (PyVal.str "T") (PyVal.str "M") (PyVal.int 1) (PyVal.int 1) (PyVal.str "z")).1,
    (classifier_scoring (PyVal.str "T") (PyVal.str "M") (PyVal.int 1) (PyVal.int 1) (PyVal.str "z")).2
      ?_ ?_ ?_ ?_⟩ <;> simp [_contains_skill_hint, pyStr, memberHintVal] <;> decide

theorem keepFirst_subset {x : CardRow} : ∀ {l : List CardRow}, x ∈ keepFirst l → x ∈ l := by
  intro l
  induction l using keepFirst.induct with
  | case1 => simp [keepFirst]
  | case2 r rs ih =>
    rw [keepFirst]
    intro hx
    rcases List.mem_cons.mp hx with h | h
    · exact h ▸ List.mem_cons_self _ _
    · exact List.mem_cons_of_mem _ (List.mem_of_mem_filter (ih h))

theorem keepFirst_pairwise : ∀ (l : List CardRow),
    (keepFirst l).Pairwise (fun a b => dedup_key a ≠ dedup_key b) := by
  intro l
  induction l using keepFirst.induct with
  | case1 => simp [keepFirst]
  | case2 r rs ih =>
    rw [keepFirst]
    refine List.pairwise_cons.mpr ⟨?_, ih⟩
    intro b hb
    have := List.of_mem_filter (keepFirst_subset hb)
    simp at this
    exact fun he => this he.symm

theorem keepFirst_of_pairwise : ∀ (l : List CardRow),
    l.Pairwise (fun a b => dedup_key a ≠ dedup_key b) → keepFirst l = l := by
  intro l
  induction l using keepFirst.induct with
  | case1 => intro _; rw [keepFirst]
  | case2 r rs ih =>
    intro hp
    rcases List.pairwise_cons.mp hp with ⟨hhead, htail⟩
    have hfil : rs.filter (fun x => !(dedup_key x = dedup_key r)) = rs := by
      apply List.filter_eq_self.mpr
      intro x hx
      simp only [Bool.not_eq_true', decide_eq_false_iff_not]
      exact fun he => hhead x hx he.symm
    rw [keepFirst]
    rw [hfil] at ih ⊢
    rw [ih htail]

theorem dedupGo_eq_keepFirst (rows : List CardRow) :
    ∀ (seen : List (Option String × Option String × Option String × Option String × Option Int))
      (acc : List CardRow),
      dedupGo seen acc rows = acc ++ keepFirst (rows.filter (fun r => decide (dedup_key r ∉ seen))) := by
  induction rows with
  | nil => intro seen acc; simp [dedupGo, keepFirst]
  | cons r rs ih =>
    intro seen acc
    by_cases h : dedup_key r ∈ seen
    · rw [dedupGo, if_pos h, ih]
      simp [h]
    · rw [dedupGo, if_neg h, ih]
      have hfil : rs.filter (fun x => decide (dedup_key x ∉ dedup_key r :: seen)) =
          (rs.filter (fun x => decide (dedup_key x ∉ seen))).filter
            (fun x => !(dedup_key x = dedup_key r)) := by
        rw [List.filter_filter]
        apply List.filter_congr
        intro x _
        by_cases hx : dedup_key x = dedup_key r <;> by_cases hs : dedup_key x ∈ seen <;>
          simp [hx, hs]
      rw [List.filter_cons, if_pos (by simp [h]), keepFirst, ← hfil]
      simp

theorem dedup_rows_eq_keepFirst (rows : List CardRow) : dedup_rows rows = keepFirst rows := by
  rw [dedup_rows, dedupGo_eq_keepFirst rows [] []]
  simp

/-- C6: Merge/Dedup keeps exactly the first record seen per composite
(id, title, member, rarity, ap_cost) key, in order, discarding every
later record with an equal key; in particular two records with equal
keys but different source_asset reduce to the first-encountered one. -/
theorem merge_dedup_keeps_first :
    (∀ rows : List CardRow, dedup_rows rows = keepFirst rows) ∧
    (∀ r1 r2 : CardRow, dedup_key r1 = dedup_key r2 → dedup_rows [r1, r2] = [r1]) := by
  refine ⟨dedup_rows_eq_keepFirst, ?_⟩
  intro r1 r2 h
  rw [dedup_rows_eq_keepFirst, keepFirst]
  have : [r2].filter (fun x => !(dedup_key x = dedup_key r1)) = [] := by
    simp [List.filter, h.symm]
  rw [this, keepFirst]

/-- Witness for C6: two rows equal on the key fields, differing only in
source_asset and last_seen, dedup to the first one. -/
theorem merge_dedup_keeps_first_witness :
    dedup_key ⟨some "1", some "T", some "M", some "R", some 5, Option.none, Option.none,
        Option.none, Option.none, Option.none, Option.none, Option.none, "assetA", "ts1"⟩ =
      dedup_key ⟨some "1", some "T", some "M", some "R", some 5, Option.none, Option.none,
        Option.none, Option.none, Option.none, Option.none, Option.none, "assetB", "ts2"⟩ ∧
    dedup_rows
      [⟨some "1", some "T", some "M", some "R", some 5, Option.none, Option.none,
        Option.none, Option.none, Option.none, Option.none, Option.none, "assetA", "ts1"⟩,
       ⟨some "1", some "T", some "M", some "R", some 5, Option.none, Option.none,
        Option.none, Option.none, Option.none, Option.none, Option.none, "assetB", "ts2"⟩] =
      [⟨some "1", some "T", some "M", some "R", some 5, Option.none, Option.none,
        Option.none, Option.none, Option.none, Option.none, Option.none, "assetA", "ts1"⟩] :=
  ⟨rfl, merge_dedup_keeps_first.2 _ _ rfl⟩

theorem keepFirst_idem (l : List CardRow) : keepFirst (keepFirst l) = keepFirst l :=
  keepFirst_of_pairwise _ (keepFirst_pairwise l)

/-- C7: Merge/Dedup is idempotent — applying the dedup pass to its own
output produces an identical result set. -/
theorem merge_dedup_idempotent (rows : List CardRow) :
    dedup_rows (dedup_rows rows) = dedup_rows rows := by
  rw [dedup_rows_eq_keepFirst, dedup_rows_eq_keepFirst, keepFirst_idem]

theorem to_int_ok {v : PyVal} {n : Int} (h : int_exn v = .ok n) : to_int v = some n := by
  simp [to_int, h]

theorem to_int_err {v : PyVal} (h : int_exn v = .error ()) : to_int v = Option.none := by
  simp [to_int, h]

/-- C5: every numeric field of the produced record is the result of the
guarded integer coercion of its source value — when the coercion
(`int(x)`, modelled by `int_exn`) succeeds the field holds that
integer, and when it raises the field is absent; no exception reaches
the record. -/
theorem numeric_fields_int_or_absent (obj : List (String × PyVal)) (s t : String) :
    ((∀ n : Int, int_exn (pyOr (dictGet obj "ap_cost") (pyOr (dictGet obj "ap") (dictGet obj "cost"))) = .ok n →
        (normalize_card_obj obj s t).ap_cost = some n) ∧
      (int_exn (pyOr (dictGet obj "ap_cost") (pyOr (dictGet obj "ap") (dictGet obj "cost"))) = .error () →
        (normalize_card_obj obj s t).ap_cost = Option.none)) ∧
    ((∀ n : Int, int_exn (dictGet obj "smile") = .ok n → (normalize_card_obj obj s t).smile = some n) ∧
      (int_exn (dictGet obj "smile") = .error () → (normalize_card_obj obj s t).smile = Option.none)) ∧
    ((∀ n : Int, int_exn (dictGet obj "pure") = .ok n → (normalize_card_obj obj s t).pure = some n) ∧
      (int_exn (dictGet obj "pure") = .error () → (normalize_card_obj obj s t).pure = Option.none)) ∧
    ((∀ n : Int, int_exn (dictGet obj "cool") = .ok n → (normalize_card_obj obj s t).cool = some n) ∧
      (int_exn (dictGet obj "cool") = .error () → (normalize_card_obj obj s t).cool = Option.none)) ∧
    ((∀ n : Int, int_exn (pyOr (dictGet obj "mental") (dictGet obj "hp")) = .ok n →
        (normalize_card_obj obj s t).mental = some n) ∧
      (int_exn (pyOr (dictGet obj "mental") (dictGet obj "hp")) = .error () →
        (normalize_card_obj obj s t).mental = Option.none)) := by
  refine ⟨⟨?_, ?_⟩, ⟨?_, ?_⟩, ⟨?_, ?_⟩, ⟨?_, ?_⟩, ⟨?_, ?_⟩⟩ <;>
    first
      | (intro n h; simp only [normalize_card_obj]; exact to_int_ok h)
      | (intro h; simp only [normalize_card_obj]; exact to_int_err h)

/-- Witness for C5: a non-numeric ap_cost string yields an absent field
while an integer smile is kept. -/
theorem numeric_fields_witness :
    int_exn (pyOr (dictGet [("ap_cost", PyVal.str "x"), ("smile", PyVal.int 7)] "ap_cost")
        (pyOr (dictGet [("ap_cost", PyVal.str "x"), ("smile", PyVal.int 7)] "ap")
          (dictGet [("ap_cost", PyVal.str "x"), ("smile", PyVal.int 7)] "cost"))) = .error () ∧
    (normalize_card_obj [("ap_cost", PyVal.str "x"), ("smile", PyVal.int 7)] "s" "t").ap_cost = Option.none ∧
    (normalize_card_obj [("ap_cost", PyVal.str "x"), ("smile", PyVal.int 7)] "s" "t").smile = some 7 :=
  ⟨rfl,
   (numeric_fields_int_or_absent [("ap_cost", PyVal.str "x"), ("smile", PyVal.int 7)] "s" "t").1.2 rfl,
   ((numeric_fields_int_or_absent [("ap_cost", PyVal.str "x"), ("smile", PyVal.int 7)] "s" "t").2.1).1 7 rfl⟩

theorem mem_pyInsertSorted {y x : String} : ∀ {l : List String},
    y ∈ pyInsertSorted x l ↔ y = x ∨ y ∈ l := by
  intro l
  induction l with
  | nil => simp [pyInsertSorted]
  | cons z zs ih =>
    by_cases h : pyStrLe z x
    · simp [pyInsertSorted, h, ih]
      try tauto
    · simp [pyInsertSorted, h]
      try tauto

theorem mem_pySortedStrings {y : String} : ∀ {l : List String},
    y ∈ pySortedStrings l ↔ y ∈ l := by
  intro l
  induction l with
  | nil => simp [pySortedStrings]
  | cons z zs ih => simp [pySortedStrings, mem_pyInsertSorted, ih]

/-- C10: external JSON references are partitioned by origin; the
same-origin part is the full sorted same-origin list (all fetched),
while the cross-origin part is the sorted cross-origin list truncated
to its first 50 entries, so a run fetches at most 50 cross-origin JSON
URLs. -/
theorem external_json_fetch_policy (same_origin : String → Bool) (urls : List String) :
    (select_external_json same_origin urls).2.length ≤ 50 ∧
    (select_external_json same_origin urls).1 = pySortedStrings (urls.filter (fun u => same_origin u)) ∧
    (select_external_json same_origin urls).2 =
      (pySortedStrings (urls.filter (fun u => !same_origin u))).take 50 ∧
    (∀ u ∈ urls, same_origin u = true → u ∈ (select_external_json same_origin urls).1) ∧
    (∀ u ∈ (select_external_json same_origin urls).2, same_origin u = false ∧ u ∈ urls) := by
  have h2 : (select_external_json same_origin urls).2 =
      (pySortedStrings (urls.filter (fun u => !same_origin u))).take 50 := by
    rw [select_external_json]
    by_cases h : 50 < (pySortedStrings (urls.filter (fun u => !same_origin u))).length
    · simp [h]
    · simp [h, List.take_of_length_le (Nat.le_of_not_lt h)]
  refine ⟨?_, rfl, h2, ?_, ?_⟩
  · rw [h2]
    simp [List.length_take]
  · intro u hu hso
    exact mem_pySortedStrings.mpr (List.mem_filter.mpr ⟨hu, by simp [hso]⟩)
  · intro u hu
    rw [h2] at hu
    have hmem := mem_pySortedStrings.mp (List.mem_of_mem_take hu)
    have := List.mem_filter.mp hmem
    refine ⟨by simpa using this.2, this.1⟩

/-- Witness for C10: with one same-origin and one cross-origin URL, the
same-origin URL is selected for fetching and the cross-origin batch is
within the 50-URL cap. -/
theorem external_json_fetch_policy_witness :
    "https://a/x.json" ∈ (select_external_json (fun u => u == "https://a/x.json")
        ["https://b/y.json", "https://a/x.json"]).1 ∧
    (select_external_json (fun u => u == "https://a/x.json")
        ["https://b/y.json", "https://a/x.json"]).2.length ≤ 50 ∧
    ((fun u => u == "https://a/x.json") "https://b/y.json" = false ∧
      "https://b/y.json" ∈ ["https://b/y.json", "https://a/x.json"]) :=
  ⟨(external_json_fetch_policy (fun u => u == "https://a/x.json")
      ["https://b/y.json", "https://a/x.json"]).2.2.2.1 _ (by simp) (by rfl),
   (external_json_fetch_policy (fun u => u == "https://a/x.json")
      ["https://b/y.json", "https://a/x.json"]).1,
   (external_json_fetch_policy (fun u => u == "https://a/x.json")
      ["https://b/y.json", "https://a/x.json"]).2.2.2.2 _ (by decide)⟩


theorem bsStateAt_succ (open_ch close_ch : Char) (st : BSSt) (ch : Char) (rest : List Char) (i : Nat) :
    bsStateAt open_ch close_ch st (ch :: rest) (i + 1) =
      bsStateAt open_ch close_ch (bsStep open_ch close_ch st ch) rest i := by
  simp [bsStateAt, List.take_succ_cons]

theorem bsCloseEventAt_succ (open_ch close_ch : Char) (st : BSSt) (ch : Char) (rest : List Char) (i : Nat) :
    bsCloseEventAt open_ch close_ch st (ch :: rest) (i + 1) =
      bsCloseEventAt open_ch close_ch (bsStep open_ch close_ch st ch) rest i := by
  simp [bsCloseEventAt, bsStateAt_succ, Nat.succ_lt_succ_iff]

theorem bsGo_none (open_ch close_ch : Char) :
    ∀ (cs : List Char) (st : BSSt) (acc : List Char),
      (∀ i < cs.length, bsCloseEventAt open_ch close_ch st cs i = false) →
      bsGo open_ch close_ch st acc cs = Option.none := by
  intro cs
  induction cs with
  | nil => intro st acc _; rfl
  | cons ch rest ih =>
    intro st acc h
    have h0 := h 0 (by simp)
    have hret : bsRet close_ch st ch = false := by
      simpa [bsCloseEventAt, bsStateAt] using h0
    rw [bsGo, if_neg (by simp [hret])]
    apply ih
    intro i hi
    have := h (i + 1) (by simpa using Nat.succ_lt_succ hi)
    rwa [bsCloseEventAt_succ] at this

/-- C9: the Bracket-Balanced Extractor returns the full quote-aware
slice on the example (the `]` inside the quoted string and the braces
do not affect the depth), and on any scan where the end of text is
reached before the depth-zero close event occurs it signals
unterminated (`none`) instead of a partial result. -/
theorem balanced_slice_props :
    _balanced_slice "[1, \"a]b\", \x7b2\x7d]".data 0 '[' ']' = some "[1, \"a]b\", \x7b2\x7d]".data ∧
    (∀ (src : List Char) (start_idx : Nat) (open_ch close_ch : Char),
      (∀ i < (src.drop start_idx).length,
        bsCloseEventAt open_ch close_ch bsInit (src.drop start_idx) i = false) →
      _balanced_slice src start_idx open_ch close_ch = Option.none) :=
  ⟨rfl, fun _ _ open_ch close_ch h => bsGo_none open_ch close_ch _ _ _ h⟩

/-- Witness for C9's unterminated case: `[1, 2` never closes, and the
extractor returns no slice. -/
theorem balanced_slice_props_witness :
    (∀ i < ("[1, 2".data.drop 0).length, bsCloseEventAt '[' ']' bsInit ("[1, 2".data.drop 0) i = false) ∧
    _balanced_slice "[1, 2".data 0 '[' ']' = Option.none :=
  ⟨by decide, balanced_slice_props.2 "[1, 2".data 0 '[' ']' (by decide)⟩

theorem extract_rows_append_aux (v : PyVal) (s t : String) (rows0 : List CardRow) :
    ∀ r, extract_card_rows_from_any v s t r = r ++ extract_card_rows_from_any v s t [] := by
  refine extract_card_rows_from_any.induct
    (fun v s t _ => ∀ r, extract_card_rows_from_any v s t r = r ++ extract_card_rows_from_any v s t [])
    (fun xs s t _ => ∀ r, extractListRows xs s t r = r ++ extractListRows xs s t [])
    (fun kvs s t _ => ∀ r, extractValsRows kvs s t r = r ++ extractValsRows kvs s t [])
    ?_ ?_ ?_ ?_ ?_ ?_ ?_ ?_ v s t rows0
  · intro s t rows kvs rows1 ih r
    simp only [extract_card_rows_from_any.eq_def]
    by_cases h : _looks_like_card_obj kvs = true
    · rw [if_pos h, if_pos h]
      rw [ih (r ++ [normalize_card_obj kvs s t]), ih ([] ++ [normalize_card_obj kvs s t])]
      simp
    · rw [if_neg h, if_neg h]
      exact ih r
  · intro s t rows xs dicts hit hc r
    simp only [extract_card_rows_from_any.eq_def]
    rw [if_pos hc, if_pos hc]
    simp
  · intro s t rows xs dicts hit hc ih r
    simp only [extract_card_rows_from_any.eq_def]
    rw [if_neg hc, if_neg hc]
    exact ih r
  · intro v s t rows h1 h2 r
    cases v with
    | dict kvs => exact absurd rfl (h1 kvs)
    | list xs => exact absurd rfl (h2 xs)
    | none => simp [extract_card_rows_from_any.eq_def]
    | bool b => simp [extract_card_rows_from_any.eq_def]
    | int n => simp [extract_card_rows_from_any.eq_def]
    | str s2 => simp [extract_card_rows_from_any.eq_def]
  · intro s t rows r
    rw [extractListRows, extractListRows]
    simp
  · intro v vs s t rows ih1 ih2 r
    rw [extractListRows, extractListRows]
    rw [ih2 (extract_card_rows_from_any v s t r), ih1 r,
      ih2 (extract_card_rows_from_any v s t [])]
    simp
  · intro s t rows r
    rw [extractValsRows, extractValsRows]
    simp
  · intro k v kvs s t rows ih1 ih2 r
    rw [extractValsRows, extractValsRows]
    rw [ih2 (extract_card_rows_from_any v s t r), ih1 r,
      ih2 (extract_card_rows_from_any v s t [])]
    simp

theorem extractListRows_flatten (s t : String) : ∀ (xs : List PyVal) (rows : List CardRow),
    extractListRows xs s t rows =
      rows ++ (xs.map (fun v => extract_card_rows_from_any v s t [])).flatten := by
  intro xs
  induction xs with
  | nil => intro rows; rw [extractListRows]; simp
  | cons v vs ih =>
    intro rows
    rw [extractListRows, ih, extract_rows_append_aux v s t [] rows]
    simp

/-- C4: on a sequence, when at least 3 elements are mappings and the
number of individually qualifying mappings reaches the `max 3 (n / 3)`
threshold ("at least one-third, minimum 3", with integer division),
exactly the qualifying mapping elements are appended as records and the
walk does not recurse into the sequence; otherwise the walk recurses
into every element, contributing each element's own rows. -/
theorem classifier_sequence_branch (xs : List PyVal) (s t : String) (rows : List CardRow) :
    (3 ≤ (xs.filterMap asDict).length ∧
        max 3 ((xs.filterMap asDict).length / 3) ≤
          ((xs.filterMap asDict).filter _looks_like_card_obj).length →
      extract_card_rows_from_any (PyVal.list xs) s t rows =
        rows ++ ((xs.filterMap asDict).filter _looks_like_card_obj).map
          (fun d => normalize_card_obj d s t)) ∧
    (¬ (3 ≤ (xs.filterMap asDict).length ∧
        max 3 ((xs.filterMap asDict).length / 3) ≤
          ((xs.filterMap asDict).filter _looks_like_card_obj).length) →
      extract_card_rows_from_any (PyVal.list xs) s t rows =
        rows ++ (xs.map (fun v => extract_card_rows_from_any v s t [])).flatten) := by
  constructor
  · intro hc
    rw [extract_card_rows_from_any.eq_2, if_pos hc]
  · intro hc
    rw [extract_card_rows_from_any.eq_2, if_neg hc]
    exact extractListRows_flatten s t xs rows

/-- Witness for C4: three qualifying dicts take the homogeneous-list
branch; a list with no dicts takes the per-element recursion branch. -/
theorem classifier_sequence_branch_witness :
    extract_card_rows_from_any
        (PyVal.list [PyVal.dict [("title", PyVal.str "T"), ("member", PyVal.str "M"), ("smile", PyVal.int 1)],
          PyVal.dict [("title", PyVal.str "T"), ("member", PyVal.str "M"), ("smile", PyVal.int 1)],
          PyVal.dict [("title", PyVal.str "T"), ("member", PyVal.str "M"), ("smile", PyVal.int 1)]]) "s" "t" [] =
      [] ++ (([PyVal.dict [("title", PyVal.str "T"), ("member", PyVal.str "M"), ("smile", PyVal.int 1)],
          PyVal.dict [("title", PyVal.str "T"), ("member", PyVal.str "M"), ("smile", PyVal.int 1)],
          PyVal.dict [("title", PyVal.str "T"), ("member", PyVal.str "M"), ("smile", PyVal.int 1)]].filterMap
            asDict).filter _looks_like_card_obj).map (fun d => normalize_card_obj d "s" "t") ∧
    extract_card_rows_from_any (PyVal.list [PyVal.int 1]) "s" "t" [] =
      [] ++ ([PyVal.int 1].map (fun v => extract_card_rows_from_any v "s" "t" [])).flatten := by
  have hl : _looks_like_card_obj [("title", PyVal.str "T"), ("member", PyVal.str "M"), ("smile", PyVal.int 1)] = true := by
    simp [_looks_like_card_obj, card_score, _contains_skill_hint, pyStr, memberHintVal]
    try decide
  refine ⟨(classifier_sequence_branch _ "s" "t" []).1 ?_, (classifier_sequence_branch _ "s" "t" []).2 ?_⟩
  · simp [List.filterMap, asDict, List.filter, hl]
  · simp [List.filterMap, asDict]

end Extract

namespace Extract

theorem digitChar_isDigit {n : Nat} (h : n < 10) : (digitChar n).isDigit = true := by
  interval_cases n <;> decide

theorem digitChar_toNat {n : Nat} (h : n < 10) : (digitChar n).toNat = 48 + n := by
  interval_cases n <;> decide

theorem digitsVal_cons (acc : Nat) (c : Char) (ds : List Char) :
    digitsVal acc (c :: ds) = digitsVal (acc * 10 + (c.toNat - 48)) ds := rfl

theorem digitsVal_append_one (acc : Nat) (ds : List Char) (d : Char) :
    digitsVal acc (ds ++ [d]) = (digitsVal acc ds) * 10 + (d.toNat - 48) := by
  simp [digitsVal, List.foldl_append]

theorem parseDigitsAcc_digits : ∀ (ds : List Char) (acc : Nat) (rest : List Char),
    (∀ c ∈ ds, c.isDigit = true) →
    parseDigitsAcc acc (ds ++ rest) = parseDigitsAcc (digitsVal acc ds) rest := by
  intro ds
  induction ds with
  | nil => intro acc rest _; simp [digitsVal]
  | cons c cs ih =>
    intro acc rest h
    have hc := h c (List.mem_cons_self _ _)
    rw [List.cons_append, parseDigitsAcc, if_pos hc, ih _ _ (fun x hx => h x (List.mem_cons_of_mem _ hx)),
      digitsVal_cons]

theorem parseDigitsAcc_stop (acc : Nat) {rest : List Char} (h : goodBreak rest) :
    parseDigitsAcc acc rest = (acc, rest) := by
  rcases h with rfl | ⟨c, cs, rfl, hc⟩
  · rfl
  · rw [parseDigitsAcc]
    rcases hc with rfl | rfl | rfl <;> simp

theorem natDigitsAux_spec : ∀ (fuel n : Nat), n < fuel →
    natDigitsAux fuel n ≠ [] ∧ (∀ c ∈ natDigitsAux fuel n, c.isDigit = true) ∧
      ∀ acc, digitsVal acc (natDigitsAux fuel n) = acc * 10 ^ (natDigitsAux fuel n).length + n := by
  intro fuel
  induction fuel with
  | zero => intro n hn; omega
  | succ f ih =>
    intro n hn
    by_cases h10 : n < 10
    · rw [natDigitsAux, if_pos h10]
      refine ⟨by simp, ?_, ?_⟩
      · intro c hcm
        rcases List.mem_singleton.mp hcm with rfl
        exact digitChar_isDigit h10
      · intro acc
        rw [digitsVal_cons]
        simp [digitsVal, digitChar_toNat h10]
        try omega
    · have hdiv : n / 10 < f := by
        have h1 : n / 10 < n := Nat.div_lt_self (by omega) (by omega)
        omega
      obtain ⟨hne, hdig, hval⟩ := ih (n / 10) hdiv
      rw [natDigitsAux, if_neg h10]
      refine ⟨by simp, ?_, ?_⟩
      · intro c hcm
        rcases List.mem_append.mp hcm with hcm | hcm
        · exact hdig c hcm
        · rcases List.mem_singleton.mp hcm with rfl
          exact digitChar_isDigit (Nat.mod_lt _ (by omega))
      · intro acc
        rw [digitsVal_append_one, hval acc, digitChar_toNat (Nat.mod_lt _ (by omega))]
        simp [List.length_append, pow_succ]
        ring_nf
        omega

theorem natDigits_spec (n : Nat) :
    natDigits n ≠ [] ∧ (∀ c ∈ natDigits n, c.isDigit = true) ∧
      digitsVal 0 (natDigits n) = n := by
  obtain ⟨h1, h2, h3⟩ := natDigitsAux_spec (n + 1) n (Nat.lt_succ_self n)
  exact ⟨h1, h2, by simpa using h3 0⟩

end Extract
namespace Extract

theorem isDigit_facts {c : Char} (hc : c.isDigit = true) :
    c ≠ 'n' ∧ c ≠ 't' ∧ c ≠ 'f' ∧ c ≠ '"' ∧ c ≠ '[' ∧ c ≠ '\x7b' ∧ c ≠ '-' ∧
      c ≠ ']' ∧ c ≠ '\x7d' ∧ c ≠ '\'' ∧ c ≠ '\\' ∧ c ≠ ',' ∧ isJsonWs c = false := by
  refine ⟨?_, ?_, ?_, ?_, ?_, ?_, ?_, ?_, ?_, ?_, ?_, ?_, ?_⟩ <;>
    first
      | (rintro rfl; revert hc; decide)
      | (simp only [isJsonWs]
         refine Bool.or_eq_false_iff.mpr ⟨Bool.or_eq_false_iff.mpr ⟨Bool.or_eq_false_iff.mpr ⟨?_, ?_⟩, ?_⟩, ?_⟩ <;>
           (simp only [decide_eq_false_iff_not]; rintro rfl; revert hc; decide))

theorem parseNumber_nat (n : Nat) {rest : List Char} (hbr : goodBreak rest) :
    parseNumber (natDigits n ++ rest) = some (.int (n : Int), rest) := by
  obtain ⟨hne, hdig, hval⟩ := natDigits_spec n
  obtain ⟨c, cs, hcons⟩ : ∃ c cs, natDigits n = c :: cs := by
    cases h : natDigits n with
    | nil => exact absurd h hne
    | cons a b => exact ⟨a, b, rfl⟩
  have hc : c.isDigit = true := hdig c (by rw [hcons]; exact List.mem_cons_self _ _)
  have hcs : ∀ x ∈ cs, x.isDigit = true := fun x hx => hdig x (by rw [hcons]; exact List.mem_cons_of_mem _ hx)
  rw [hcons, List.cons_append, parseNumber.eq_def]
  dsimp only
  rw [if_neg ((isDigit_facts hc).2.2.2.2.2.2.1), if_pos hc]
  rw [parseDigitsAcc_digits cs _ rest hcs, parseDigitsAcc_stop _ hbr]
  have : digitsVal (c.toNat - 48) cs = n := by
    have := hval
    rw [hcons, digitsVal_cons] at this
    simpa using this
  simp [this]

theorem parseNumber_int (n : Int) {rest : List Char} (hbr : goodBreak rest) :
    parseNumber (intDigits n ++ rest) = some (.int n, rest) := by
  by_cases hn : n < 0
  · rw [intDigits, if_pos hn]
    obtain ⟨hne, hdig, hval⟩ := natDigits_spec (-n).toNat
    obtain ⟨c, cs, hcons⟩ : ∃ c cs, natDigits (-n).toNat = c :: cs := by
      cases h : natDigits (-n).toNat with
      | nil => exact absurd h hne
      | cons a b => exact ⟨a, b, rfl⟩
    have hc : c.isDigit = true := hdig c (by rw [hcons]; exact List.mem_cons_self _ _)
    have hcs : ∀ x ∈ cs, x.isDigit = true := fun x hx => hdig x (by rw [hcons]; exact List.mem_cons_of_mem _ hx)
    rw [List.cons_append, hcons, List.cons_append, parseNumber.eq_def]
    dsimp only
    simp only [reduceIte]
    rw [if_pos hc, parseDigitsAcc_digits cs _ rest hcs, parseDigitsAcc_stop _ hbr]
    have hv : digitsVal (c.toNat - 48) cs = (-n).toNat := by
      have := hval
      rw [hcons, digitsVal_cons] at this
      simpa using this
    simp [hv]
    omega
  · rw [intDigits, if_neg hn]
    have hcast : ((n.toNat : Nat) : Int) = n := Int.toNat_of_nonneg (by omega)
    rw [parseNumber_nat n.toNat hbr, hcast]

end Extract
namespace Extract

theorem parseStringBody_quote (rest : List Char) : parseStringBody ('"' :: rest) = some ([], rest) := by
  rw [parseStringBody.eq_def]
  dsimp only
  simp only [reduceIte]

theorem parseStringBody_escq (rest : List Char) :
    parseStringBody ('\\' :: '"' :: rest) =
      match parseStringBody rest with
      | some (s, r) => some ('"' :: s, r)
      | Option.none => Option.none := by
  rw [parseStringBody.eq_def]
  dsimp only
  simp only [reduceIte]
  rw [show unescapeJson '"' = some '"' from rfl]
  simp only [reduceIte]
  rw [if_neg (by decide)]

theorem parseStringBody_escb (rest : List Char) :
    parseStringBody ('\\' :: '\\' :: rest) =
      match parseStringBody rest with
      | some (s, r) => some ('\\' :: s, r)
      | Option.none => Option.none := by
  rw [parseStringBody.eq_def]
  dsimp only
  simp only [reduceIte]
  rw [show unescapeJson '\\' = some '\\' from rfl]
  simp only [reduceIte]
  rw [if_neg (by decide)]

theorem parseStringBody_raw (c : Char) (rest : List Char) (h1 : c ≠ '"') (h2 : c ≠ '\\')
    (h3 : 32 ≤ c.toNat) :
    parseStringBody (c :: rest) =
      match parseStringBody rest with
      | some (s, r) => some (c :: s, r)
      | Option.none => Option.none := by
  rw [parseStringBody.eq_def]
  dsimp only
  rw [if_neg h1, if_neg h2, if_neg (by omega)]

theorem parseStringBody_escape : ∀ (l : List Char) (rest : List Char),
    (∀ c ∈ l, 32 ≤ c.toNat) →
    parseStringBody (escapeJson l ++ '"' :: rest) = some (l, rest) := by
  intro l
  induction l with
  | nil =>
    intro rest _
    rw [escapeJson, List.nil_append, parseStringBody_quote]
  | cons c cs ih =>
    intro rest h
    have hc := h c (List.mem_cons_self _ _)
    have hcs := fun x hx => h x (List.mem_cons_of_mem _ hx)
    rw [escapeJson]
    by_cases h1 : c = '"'
    · subst h1
      rw [if_pos rfl, List.append_assoc, List.cons_append, List.cons_append, List.nil_append,
        parseStringBody_escq, ih rest hcs]
    · by_cases h2 : c = '\\'
      · subst h2
        rw [if_neg h1, if_pos rfl, List.append_assoc, List.cons_append, List.cons_append,
          List.nil_append, parseStringBody_escb, ih rest hcs]
      · rw [if_neg h1, if_neg h2, List.append_assoc, List.cons_append, List.nil_append,
          parseStringBody_raw c _ h1 h2 hc, ih rest hcs]

end Extract
namespace Extract

theorem skipWs_cons_not_ws {c : Char} (cs : List Char) (h : isJsonWs c = false) :
    skipWs (c :: cs) = c :: cs := by
  simp [skipWs, List.dropWhile, h]

theorem pvFuel_pos (v : PyVal) : 1 ≤ pvFuel v := by
  cases v <;> simp [pvFuel]

theorem natDigits_cons (n : Nat) : ∃ c cs, natDigits n = c :: cs ∧ c.isDigit = true := by
  obtain ⟨hne, hdig, _⟩ := natDigits_spec n
  cases h : natDigits n with
  | nil => exact absurd h hne
  | cons a b =>
    exact ⟨a, b, rfl, hdig a (by rw [h]; exact List.mem_cons_self _ _)⟩

theorem serializeVal_head (v : PyVal) :
    ∃ c cs, serializeVal v = c :: cs ∧ isJsonWs c = false ∧ c ≠ ']' ∧ c ≠ '\x7d' := by
  cases v with
  | none => exact ⟨'n', "ull".data, by simp [serializeVal], by decide, by decide, by decide⟩
  | bool b =>
    cases b with
    | true => exact ⟨'t', "rue".data, by simp [serializeVal], by decide, by decide, by decide⟩
    | false => exact ⟨'f', "alse".data, by simp [serializeVal], by decide, by decide, by decide⟩
  | int n =>
    by_cases hn : n < 0
    · refine ⟨'-', natDigits (-n).toNat, ?_, by decide, by decide, by decide⟩
      simp [serializeVal, intDigits, hn]
    · obtain ⟨c, cs, hcons, hdig⟩ := natDigits_cons n.toNat
      refine ⟨c, cs, ?_, (isDigit_facts hdig).2.2.2.2.2.2.2.2.2.2.2.2,
        (isDigit_facts hdig).2.2.2.2.2.2.2.1, (isDigit_facts hdig).2.2.2.2.2.2.2.2.1⟩
      simp [serializeVal, intDigits, hn, hcons]
  | str s => exact ⟨'"', escapeJson s.data ++ ['"'], by simp [serializeVal], by decide, by decide, by decide⟩
  | list xs => exact ⟨'[', serializeItems xs ++ [']'], by simp [serializeVal], by decide, by decide, by decide⟩
  | dict kvs => exact ⟨'\x7b', serializeMembers kvs ++ ['\x7d'], by simp [serializeVal], by decide, by decide, by decide⟩

theorem serializeItems_cons_shape (x : PyVal) (xs : List PyVal) :
    ∃ t, serializeItems (x :: xs) = serializeVal x ++ t := by
  cases xs with
  | nil => exact ⟨[], by simp [serializeItems]⟩
  | cons y ys => exact ⟨',' :: serializeItems (y :: ys), by simp [serializeItems]⟩

end Extract
namespace Extract

theorem goodBreak_comma (rest : List Char) : goodBreak (',' :: rest) :=
  Or.inr ⟨',', rest, rfl, Or.inl rfl⟩

theorem goodBreak_rbracket (rest : List Char) : goodBreak (']' :: rest) :=
  Or.inr ⟨']', rest, rfl, Or.inr (Or.inl rfl)⟩

theorem goodBreak_rbrace (rest : List Char) : goodBreak ('\x7d' :: rest) :=
  Or.inr ⟨'\x7d', rest, rfl, Or.inr (Or.inr rfl)⟩

theorem parse_roundtrip : ∀ fuel : Nat,
    (∀ (v : PyVal) (rest : List Char), pvSafe v = true → goodBreak rest → pvFuel v ≤ fuel →
      parseVal fuel (serializeVal v ++ rest) = some (v, rest)) ∧
    (∀ (x : PyVal) (xs : List PyVal) (acc : List PyVal) (rest : List Char),
      pvListSafe (x :: xs) = true → pvItemsFuel (x :: xs) ≤ fuel →
      parseItems fuel (serializeItems (x :: xs) ++ ']' :: rest) acc = some (.list (acc ++ x :: xs), rest)) ∧
    (∀ (k : String) (v : PyVal) (kvs : List (String × PyVal)) (acc : List (String × PyVal)) (rest : List Char),
      pvMembersSafe ((k, v) :: kvs) = true → pvMembersFuel ((k, v) :: kvs) ≤ fuel →
      parseMembers fuel (serializeMembers ((k, v) :: kvs) ++ '\x7d' :: rest) acc =
        some (.dict (acc ++ (k, v) :: kvs), rest)) := by
  intro fuel
  induction fuel using Nat.strong_induction_on with
  | _ fuel ih =>
    match fuel with
    | 0 =>
      refine ⟨?_, ?_, ?_⟩
      · intro v rest _ _ hfl
        have := pvFuel_pos v
        omega
      · intro x xs acc rest _ hfl
        simp [pvItemsFuel] at hfl
      · intro k v kvs acc rest _ hfl
        simp [pvMembersFuel] at hfl
    | f + 1 =>
      refine ⟨?_, ?_, ?_⟩
      · intro v rest hsafe hbr hfl
        cases v with
        | none =>
          rw [show serializeVal PyVal.none = 'n' :: 'u' :: 'l' :: 'l' :: [] from by simp [serializeVal]]
          simp only [List.cons_append, List.nil_append]
          rw [parseVal.eq_def]
          try dsimp only
          rw [skipWs_cons_not_ws _ (by decide)]
          try dsimp only
          simp only [reduceIte]
        | bool b =>
          cases b with
          | true =>
            rw [show serializeVal (PyVal.bool true) = 't' :: 'r' :: 'u' :: 'e' :: [] from by
              simp [serializeVal]]
            simp only [List.cons_append, List.nil_append]
            rw [parseVal.eq_def]
            dsimp only
            rw [skipWs_cons_not_ws _ (by decide)]
            dsimp only
            simp only [reduceIte]
            rw [if_neg (by decide)]
          | false =>
            rw [show serializeVal (PyVal.bool false) = 'f' :: 'a' :: 'l' :: 's' :: 'e' :: [] from by
              simp [serializeVal]]
            simp only [List.cons_append, List.nil_append]
            rw [parseVal.eq_def]
            dsimp only
            rw [skipWs_cons_not_ws _ (by decide)]
            dsimp only
            simp only [reduceIte]
            rw [if_neg (by decide), if_neg (by decide)]
        | str s =>
          rw [show serializeVal (PyVal.str s) = '"' :: (escapeJson s.data ++ ['"']) from by
            simp [serializeVal]]
          simp only [List.cons_append, List.append_assoc, List.singleton_append, List.nil_append]
          rw [parseVal.eq_def]
          try dsimp only
          rw [skipWs_cons_not_ws _ (by decide)]
          try dsimp only
          rw [if_neg (by decide), if_neg (by decide), if_neg (by decide), if_pos rfl]
          have hsafe2 : ∀ c ∈ s.data, 32 ≤ c.toNat := by
            simp only [pvSafe, List.all_eq_true, decide_eq_true_eq] at hsafe
            exact hsafe
          rw [parseStringBody_escape s.data rest hsafe2]
        | int n =>
          by_cases hn : n < 0
          · rw [show serializeVal (PyVal.int n) = '-' :: natDigits (-n).toNat from by
              simp [serializeVal, intDigits, hn]]
            simp only [List.cons_append]
            rw [parseVal.eq_def]
            dsimp only
            rw [skipWs_cons_not_ws _ (by decide)]
            dsimp only
            rw [if_neg (by decide), if_neg (by decide), if_neg (by decide), if_neg (by decide),
              if_neg (by decide), if_neg (by decide)]
            rw [← List.cons_append,
              show '-' :: natDigits (-n).toNat = intDigits n from by simp [intDigits, hn]]
            exact parseNumber_int n hbr
          · obtain ⟨c, cs, hcons, hdig⟩ := natDigits_cons n.toNat
            rw [show serializeVal (PyVal.int n) = c :: cs from by
              simp [serializeVal, intDigits, hn, hcons]]
            simp only [List.cons_append]
            rw [parseVal.eq_def]
            dsimp only
            obtain ⟨f1, f2, f3, f4, f5, f6, _, _, _, _, _, _, fws⟩ := isDigit_facts hdig
            rw [skipWs_cons_not_ws _ fws]
            dsimp only
            rw [if_neg f1, if_neg f2, if_neg f3, if_neg f4, if_neg f5, if_neg f6]
            rw [← List.cons_append, ← hcons,
              show natDigits n.toNat = intDigits n from by simp [intDigits, hn]]
            exact parseNumber_int n hbr
        | list xs =>
          cases xs with
          | nil =>
            rw [show serializeVal (PyVal.list []) = '[' :: ']' :: [] from by
              simp [serializeVal, serializeItems]]
            simp only [List.cons_append, List.nil_append]
            rw [parseVal.eq_def]
            dsimp only
            rw [skipWs_cons_not_ws _ (by decide)]
            dsimp only
            rw [if_neg (by decide), if_neg (by decide), if_neg (by decide), if_neg (by decide),
              if_pos rfl]
            rw [skipWs_cons_not_ws _ (by decide)]
            simp only [List.headD_cons, List.tail_cons]
            rw [if_pos trivial]
          | cons x xs' =>
            obtain ⟨t, ht⟩ := serializeItems_cons_shape x xs'
            obtain ⟨c, cs, hcons, hws, hne1, hne2⟩ := serializeVal_head x
            rw [show serializeVal (PyVal.list (x :: xs')) =
                '[' :: (serializeItems (x :: xs') ++ [']']) from by simp [serializeVal]]
            simp only [List.cons_append, List.append_assoc, List.singleton_append, List.nil_append]
            rw [parseVal.eq_def]
            dsimp only
            rw [skipWs_cons_not_ws _ (by decide)]
            dsimp only
            rw [if_neg (by decide), if_neg (by decide), if_neg (by decide), if_neg (by decide),
              if_pos rfl]
            have hskip : skipWs (serializeItems (x :: xs') ++ ']' :: rest) =
                c :: (cs ++ (t ++ ']' :: rest)) := by
              rw [ht, hcons]
              simp only [List.cons_append, List.append_assoc]
              exact skipWs_cons_not_ws _ hws
            rw [hskip]
            simp only [List.headD_cons]
            rw [if_neg hne1]
            have hsafeI : pvListSafe (x :: xs') = true := by
              simpa [pvSafe] using hsafe
            have hflI : pvItemsFuel (x :: xs') ≤ f := by
              have hpv : pvFuel (PyVal.list (x :: xs')) = 1 + pvItemsFuel (x :: xs') := by
                simp [pvFuel]
              omega
            rw [(ih f (Nat.lt_succ_self f)).2.1 x xs' [] rest hsafeI hflI]
            simp
        | dict kvs =>
          cases kvs with
          | nil =>
            rw [show serializeVal (PyVal.dict []) = '\x7b' :: '\x7d' :: [] from by
              simp [serializeVal, serializeMembers]]
            simp only [List.cons_append, List.nil_append]
            rw [parseVal.eq_def]
            dsimp only
            rw [skipWs_cons_not_ws _ (by decide)]
            dsimp only
            rw [if_neg (by decide), if_neg (by decide), if_neg (by decide), if_neg (by decide),
              if_neg (by decide), if_pos rfl]
            rw [skipWs_cons_not_ws _ (by decide)]
            simp only [List.headD_cons, List.tail_cons]
            rw [if_pos trivial]
          | cons kv kvs' =>
            obtain ⟨k, v⟩ := kv
            have hshape : ∃ t2, serializeMembers ((k, v) :: kvs') = '"' :: t2 := by
              cases kvs' with
              | nil =>
                exact ⟨escapeJson k.data ++ '"' :: ':' :: serializeVal v, by
                  simp [serializeMembers]⟩
              | cons kv2 kvs2 =>
                exact ⟨escapeJson k.data ++ '"' :: ':' ::
                  (serializeVal v ++ ',' :: serializeMembers (kv2 :: kvs2)), by
                  simp [serializeMembers]⟩
            obtain ⟨t2, ht2⟩ := hshape
            rw [show serializeVal (PyVal.dict ((k, v) :: kvs')) =
                '\x7b' :: (serializeMembers ((k, v) :: kvs') ++ ['\x7d']) from by
              simp [serializeVal]]
            simp only [List.cons_append, List.append_assoc, List.singleton_append, List.nil_append]
            rw [parseVal.eq_def]
            dsimp only
            rw [skipWs_cons_not_ws _ (by decide)]
            dsimp only
            rw [if_neg (by decide), if_neg (by decide), if_neg (by decide), if_neg (by decide),
              if_neg (by decide), if_pos rfl]
            have hskip : skipWs (serializeMembers ((k, v) :: kvs') ++ '\x7d' :: rest) =
                '"' :: (t2 ++ '\x7d' :: rest) := by
              rw [ht2]
              simp only [List.cons_append]
              exact skipWs_cons_not_ws _ (by decide)
            rw [hskip]
            simp only [List.headD_cons]
            rw [if_neg (by decide)]
            have hsafeM : pvMembersSafe ((k, v) :: kvs') = true := by
              simpa [pvSafe] using hsafe
            have hflM : pvMembersFuel ((k, v) :: kvs') ≤ f := by
              have hpv : pvFuel (PyVal.dict ((k, v) :: kvs')) =
                  1 + pvMembersFuel ((k, v) :: kvs') := by
                simp [pvFuel]
              omega
            rw [(ih f (Nat.lt_succ_self f)).2.2 k v kvs' [] rest hsafeM hflM]
            simp
      · intro x xs acc rest hsafe hfl
        have hsx : pvSafe x = true ∧ pvListSafe xs = true := by
          simp only [pvListSafe, Bool.and_eq_true] at hsafe
          exact hsafe
        rw [parseItems.eq_def]
        dsimp only
        cases xs with
        | nil =>
          rw [show serializeItems [x] = serializeVal x from by simp [serializeItems]]
          have hflx : pvFuel x ≤ f := by
            simp only [pvItemsFuel] at hfl
            omega
          rw [(ih f (Nat.lt_succ_self f)).1 x (']' :: rest) hsx.1 (goodBreak_rbracket rest) hflx]
          dsimp only
          rw [skipWs_cons_not_ws _ (by decide)]
          simp only [List.headD_cons, List.tail_cons]
          rw [if_neg (by decide), if_pos trivial]
        | cons y ys =>
          rw [show serializeItems (x :: y :: ys) =
              serializeVal x ++ ',' :: serializeItems (y :: ys) from by simp [serializeItems]]
          simp only [List.append_assoc, List.cons_append]
          have hple := pvFuel_pos x
          have hfl2 : pvFuel x ≤ f ∧ pvItemsFuel (y :: ys) ≤ f := by
            simp only [pvItemsFuel] at hfl ⊢
            omega
          rw [(ih f (Nat.lt_succ_self f)).1 x (',' :: (serializeItems (y :: ys) ++ ']' :: rest))
            hsx.1 (goodBreak_comma _) hfl2.1]
          dsimp only
          rw [skipWs_cons_not_ws _ (by decide)]
          simp only [List.headD_cons, List.tail_cons]
          rw [if_pos trivial]
          rw [(ih f (Nat.lt_succ_self f)).2.1 y ys (acc ++ [x]) rest hsx.2 hfl2.2]
          simp
      · intro k v kvs acc rest hsafe hfl
        have hsafeK : (∀ c ∈ k.data, 32 ≤ c.toNat) ∧ pvSafe v = true ∧ pvMembersSafe kvs = true := by
          simp only [pvMembersSafe, Bool.and_eq_true, List.all_eq_true, decide_eq_true_eq] at hsafe
          exact ⟨hsafe.1.1, hsafe.1.2, hsafe.2⟩
        rw [parseMembers.eq_def]
        dsimp only
        cases kvs with
        | nil =>
          rw [show serializeMembers [(k, v)] =
              '"' :: escapeJson k.data ++ '"' :: ':' :: serializeVal v from by simp [serializeMembers]]
          simp only [List.cons_append, List.append_assoc]
          rw [skipWs_cons_not_ws _ (by decide)]
          simp only [List.headD_cons, List.tail_cons]
          rw [if_pos trivial]
          rw [parseStringBody_escape k.data _ hsafeK.1]
          dsimp only
          rw [skipWs_cons_not_ws _ (by decide)]
          simp only [List.headD_cons, List.tail_cons]
          rw [if_pos trivial]
          have hflv : pvFuel v ≤ f := by
            simp only [pvMembersFuel] at hfl
            omega
          rw [(ih f (Nat.lt_succ_self f)).1 v ('\x7d' :: rest) hsafeK.2.1 (goodBreak_rbrace rest) hflv]
          dsimp only
          rw [skipWs_cons_not_ws _ (by decide)]
          simp only [List.headD_cons, List.tail_cons]
          rw [if_neg (by decide), if_pos trivial]
        | cons kv2 kvs2 =>
          obtain ⟨k2, v2⟩ := kv2
          rw [show serializeMembers ((k, v) :: (k2, v2) :: kvs2) =
              '"' :: escapeJson k.data ++ '"' :: ':' ::
                (serializeVal v ++ ',' :: serializeMembers ((k2, v2) :: kvs2)) from by
            simp [serializeMembers]]
          simp only [List.cons_append, List.append_assoc]
          rw [skipWs_cons_not_ws _ (by decide)]
          simp only [List.headD_cons, List.tail_cons]
          rw [if_pos trivial]
          rw [parseStringBody_escape k.data _ hsafeK.1]
          dsimp only
          rw [skipWs_cons_not_ws _ (by decide)]
          simp only [List.headD_cons, List.tail_cons]
          rw [if_pos trivial]
          have hplv := pvFuel_pos v
          have hfl2 : pvFuel v ≤ f ∧ pvMembersFuel ((k2, v2) :: kvs2) ≤ f := by
            simp only [pvMembersFuel] at hfl ⊢
            omega
          rw [(ih f (Nat.lt_succ_self f)).1 v
            (',' :: (serializeMembers ((k2, v2) :: kvs2) ++ '\x7d' :: rest)) hsafeK.2.1
            (goodBreak_comma _) hfl2.1]
          dsimp only
          rw [skipWs_cons_not_ws _ (by decide)]
          simp only [List.headD_cons, List.tail_cons]
          rw [if_pos trivial]
          rw [(ih f (Nat.lt_succ_self f)).2.2 k2 v2 kvs2 (acc ++ [(String.mk k.data, v)]) rest
            hsafeK.2.2 hfl2.2]
          simp

end Extract
namespace Extract

theorem bsGo_step_no_ret {st : BSSt} {ch : Char} (acc rest : List Char)
    (hr : bsRet ']' st ch = false) :
    bsGo '[' ']' st acc (ch :: rest) = bsGo '[' ']' (bsStep '[' ']' st ch) (acc ++ [ch]) rest := by
  rw [bsGo, if_neg (by simp [hr])]

theorem bsRet_ne_close {st : BSSt} {ch : Char} (h : ch ≠ ']') : bsRet ']' st ch = false := by
  simp [bsRet, h]

theorem bsRet_in_str {st : BSSt} (ch : Char) (h : st.in_str = true) : bsRet ']' st ch = false := by
  simp [bsRet, h]

theorem bsStep_quote_open {st : BSSt} {ch : Char} (h : st.in_str = false)
    (hq : ch = '\'' ∨ ch = '"') :
    bsStep '[' ']' st ch = { st with in_str := true, quote := ch } := by
  rw [bsStep, if_neg (by simp [h]), if_pos hq]

theorem bsStep_inert {st : BSSt} {ch : Char} (h : st.in_str = false)
    (hq : ¬(ch = '\'' ∨ ch = '"')) (ho : ch ≠ '[') (hc : ch ≠ ']') :
    bsStep '[' ']' st ch = st := by
  rw [bsStep, if_neg (by simp [h]), if_neg hq, if_neg ho, if_neg hc]

theorem bsGo_inert : ∀ (ds : List Char) (st : BSSt) (acc rest : List Char),
    st.in_str = false →
    (∀ ch ∈ ds, ¬(ch = '\'' ∨ ch = '"') ∧ ch ≠ '[' ∧ ch ≠ ']') →
    bsGo '[' ']' st acc (ds ++ rest) = bsGo '[' ']' st (acc ++ ds) rest := by
  intro ds
  induction ds with
  | nil => intro st acc rest _ _; simp
  | cons ch ds ih =>
    intro st acc rest hstr hds
    obtain ⟨hq, ho, hc⟩ := hds ch (List.mem_cons_self _ _)
    rw [List.cons_append, bsGo_step_no_ret _ _ (bsRet_ne_close hc), bsStep_inert hstr hq ho hc,
      ih st (acc ++ [ch]) rest hstr (fun x hx => hds x (List.mem_cons_of_mem _ hx))]
    simp

theorem bsGo_string_body : ∀ (l : List Char) (st : BSSt) (acc rest : List Char),
    st.in_str = true → st.quote = '"' → st.esc = false →
    bsGo '[' ']' st acc (escapeJson l ++ rest) = bsGo '[' ']' st (acc ++ escapeJson l) rest := by
  intro l
  induction l with
  | nil => intro st acc rest _ _ _; simp [escapeJson]
  | cons c cs ih =>
    intro st acc rest hstr hq hesc
    rw [escapeJson]
    by_cases h1 : c = '"'
    · subst h1
      rw [if_pos rfl]
      simp only [List.cons_append, List.nil_append]
      rw [bsGo_step_no_ret _ _ (bsRet_in_str _ hstr)]
      have hs1 : bsStep '[' ']' st '\\' = { st with esc := true } := by
        rw [bsStep, if_pos (by simp [hstr]), if_neg (by simp [hesc]), if_pos rfl]
      rw [hs1]
      rw [bsGo_step_no_ret _ _ (bsRet_in_str _ (by simp [hstr]))]
      have hs2 : bsStep '[' ']' { st with esc := true } '"' = st := by
        rw [bsStep, if_pos (by simp [hstr]), if_pos (by simp)]
        cases st
        simp_all
      rw [hs2, ih st _ rest hstr hq hesc]
      simp
    · by_cases h2 : c = '\\'
      · subst h2
        rw [if_neg h1, if_pos rfl]
        simp only [List.cons_append, List.nil_append]
        rw [bsGo_step_no_ret _ _ (bsRet_in_str _ hstr)]
        have hs1 : bsStep '[' ']' st '\\' = { st with esc := true } := by
          rw [bsStep, if_pos (by simp [hstr]), if_neg (by simp [hesc]), if_pos rfl]
        rw [hs1]
        rw [bsGo_step_no_ret _ _ (bsRet_in_str _ (by simp [hstr]))]
        have hs2 : bsStep '[' ']' { st with esc := true } '\\' = st := by
          rw [bsStep, if_pos (by simp [hstr]), if_pos (by simp)]
          cases st
          simp_all
        rw [hs2, ih st _ rest hstr hq hesc]
        simp
      · rw [if_neg h1, if_neg h2]
        simp only [List.singleton_append, List.cons_append, List.nil_append]
        rw [bsGo_step_no_ret _ _ (bsRet_in_str _ hstr)]
        have hs1 : bsStep '[' ']' st c = st := by
          rw [bsStep, if_pos (by simp [hstr]), if_neg (by simp [hesc]), if_neg h2,
            if_neg (by rw [hq]; exact h1)]
        rw [hs1, ih st _ rest hstr hq hesc]
        simp

theorem bsGo_string (l : List Char) (st : BSSt) (acc rest : List Char)
    (hstr : st.in_str = false) (hesc : st.esc = false) :
    bsGo '[' ']' st acc ('"' :: (escapeJson l ++ '"' :: rest)) =
      bsGo '[' ']' { st with quote := '"' } (acc ++ '"' :: (escapeJson l ++ ['"'])) rest := by
  rw [bsGo_step_no_ret _ _ (bsRet_ne_close (by decide)),
    bsStep_quote_open hstr (Or.inr rfl)]
  rw [bsGo_string_body l _ _ _ (by simp) (by simp) (by simp [hesc])]
  rw [bsGo_step_no_ret _ _ (bsRet_in_str _ (by simp))]
  have hs2 : bsStep '[' ']' { st with in_str := true, quote := '"' } '"' =
      { st with in_str := false, quote := '"' } := by
    rw [bsStep, if_pos (by simp), if_neg (by simp [hesc]), if_neg (by decide), if_pos (by simp)]
  rw [hs2]
  have : ({ st with in_str := false, quote := '"' } : BSSt) = { st with quote := '"' } := by
    cases st
    simp_all
  rw [this]
  simp

end Extract
namespace Extract

theorem bsst_quote_self (st : BSSt) : ({ st with quote := st.quote } : BSSt) = st := rfl

theorem bsStep_open {st : BSSt} (h : st.in_str = false) :
    bsStep '[' ']' st '[' = { st with depth := st.depth + 1 } := by
  rw [bsStep, if_neg (by simp [h]), if_neg (by decide), if_pos rfl]

theorem bsStep_close {st : BSSt} (h : st.in_str = false) :
    bsStep '[' ']' st ']' = { st with depth := st.depth - 1 } := by
  rw [bsStep, if_neg (by simp [h]), if_neg (by decide), if_neg (by decide), if_pos rfl]

theorem inert_of_digits {ds : List Char} (h : ∀ c ∈ ds, c.isDigit = true) :
    ∀ ch ∈ ds, ¬(ch = '\'' ∨ ch = '"') ∧ ch ≠ '[' ∧ ch ≠ ']' := by
  intro ch hch
  obtain ⟨_, _, _, h4, h5, _, _, h8, _, h10, _, _, _⟩ := isDigit_facts (h ch hch)
  exact ⟨by simp [h10, h4], h5, h8⟩

theorem bsGo_scan : ∀ n : Nat,
    (∀ v : PyVal, pvFuel v ≤ n → ∀ (st : BSSt) (acc rest : List Char),
      st.in_str = false → st.esc = false → 1 ≤ st.depth →
      ∃ q, bsGo '[' ']' st acc (serializeVal v ++ rest) =
        bsGo '[' ']' { st with quote := q } (acc ++ serializeVal v) rest) ∧
    (∀ xs : List PyVal, pvItemsFuel xs ≤ n → ∀ (st : BSSt) (acc rest : List Char),
      st.in_str = false → st.esc = false → 1 ≤ st.depth →
      ∃ q, bsGo '[' ']' st acc (serializeItems xs ++ rest) =
        bsGo '[' ']' { st with quote := q } (acc ++ serializeItems xs) rest) ∧
    (∀ kvs : List (String × PyVal), pvMembersFuel kvs ≤ n → ∀ (st : BSSt) (acc rest : List Char),
      st.in_str = false → st.esc = false → 1 ≤ st.depth →
      ∃ q, bsGo '[' ']' st acc (serializeMembers kvs ++ rest) =
        bsGo '[' ']' { st with quote := q } (acc ++ serializeMembers kvs) rest) := by
  intro n
  induction n using Nat.strong_induction_on with
  | _ n ih =>
    refine ⟨?_, ?_, ?_⟩
    · intro v hfl st acc rest hstr hesc hdep
      cases v with
      | none =>
        refine ⟨st.quote, ?_⟩
        rw [bsst_quote_self]
        rw [show serializeVal PyVal.none = "null".data from by simp [serializeVal]]
        exact bsGo_inert _ st acc rest hstr (by decide)
      | bool b =>
        refine ⟨st.quote, ?_⟩
        rw [bsst_quote_self]
        cases b with
        | true =>
          rw [show serializeVal (PyVal.bool true) = "true".data from by simp [serializeVal]]
          exact bsGo_inert _ st acc rest hstr (by decide)
        | false =>
          rw [show serializeVal (PyVal.bool false) = "false".data from by simp [serializeVal]]
          exact bsGo_inert _ st acc rest hstr (by decide)
      | int m =>
        refine ⟨st.quote, ?_⟩
        rw [bsst_quote_self]
        rw [show serializeVal (PyVal.int m) = intDigits m from by simp [serializeVal]]
        apply bsGo_inert _ st acc rest hstr
        rw [intDigits]
        by_cases hm : m < 0
        · rw [if_pos hm]
          intro ch hch
          rcases List.mem_cons.mp hch with rfl | hch2
          · exact ⟨by decide, by decide, by decide⟩
          · exact inert_of_digits (natDigits_spec _).2.1 ch hch2
        · rw [if_neg hm]
          exact inert_of_digits (natDigits_spec _).2.1
      | str s =>
        refine ⟨'"', ?_⟩
        rw [show serializeVal (PyVal.str s) = '"' :: (escapeJson s.data ++ ['"']) from by
          simp [serializeVal]]
        simp only [List.cons_append, List.append_assoc, List.singleton_append, List.nil_append]
        rw [bsGo_string s.data st acc rest hstr hesc]
      | list xs =>
        have hif : pvItemsFuel xs < n := by
          have : pvFuel (PyVal.list xs) = 1 + pvItemsFuel xs := by simp [pvFuel]
          omega
        rw [show serializeVal (PyVal.list xs) = '[' :: (serializeItems xs ++ [']']) from by
          simp [serializeVal]]
        simp only [List.cons_append, List.append_assoc, List.singleton_append, List.nil_append]
        rw [bsGo_step_no_ret _ _ (bsRet_ne_close (by decide)), bsStep_open hstr]
        obtain ⟨q, hq⟩ := (ih (pvItemsFuel xs) hif).2.1 xs le_rfl
          { st with depth := st.depth + 1 } (acc ++ ['[']) (']' :: rest)
          (by simp [hstr]) (by simp [hesc]) (by simp; omega)
        rw [hq]
        have hret : bsRet ']' { st with depth := st.depth + 1, quote := q } ']' = false := by
          simp [bsRet, hstr]
          omega
        rw [bsGo_step_no_ret _ _ hret, bsStep_close (by simp [hstr])]
        refine ⟨q, ?_⟩
        simp
      | dict kvs =>
        have hif : pvMembersFuel kvs < n := by
          have : pvFuel (PyVal.dict kvs) = 1 + pvMembersFuel kvs := by simp [pvFuel]
          omega
        rw [show serializeVal (PyVal.dict kvs) = '\x7b' :: (serializeMembers kvs ++ ['\x7d']) from by
          simp [serializeVal]]
        simp only [List.cons_append, List.append_assoc, List.singleton_append, List.nil_append]
        rw [bsGo_step_no_ret _ _ (bsRet_ne_close (by decide)),
          bsStep_inert hstr (by decide) (by decide) (by decide)]
        obtain ⟨q, hq⟩ := (ih (pvMembersFuel kvs) hif).2.2 kvs le_rfl
          st (acc ++ ['\x7b']) ('\x7d' :: rest) hstr hesc hdep
        rw [hq]
        rw [bsGo_step_no_ret _ _ (bsRet_ne_close (by decide)),
          bsStep_inert (by simp [hstr]) (by decide) (by decide) (by decide)]
        refine ⟨q, ?_⟩
        simp
    · intro xs hfl st acc rest hstr hesc hdep
      cases xs with
      | nil =>
        refine ⟨st.quote, ?_⟩
        rw [bsst_quote_self]
        rw [show serializeItems [] = ([] : List Char) from by simp [serializeItems]]
        simp
      | cons x xs' =>
        have hvx : pvFuel x < n := by
          have : pvItemsFuel (x :: xs') = 1 + pvFuel x + pvItemsFuel xs' := by simp [pvItemsFuel]
          omega
        cases xs' with
        | nil =>
          rw [show serializeItems [x] = serializeVal x from by simp [serializeItems]]
          exact (ih (pvFuel x) hvx).1 x le_rfl st acc rest hstr hesc hdep
        | cons y ys =>
          have hiy : pvItemsFuel (y :: ys) < n := by
            have : pvItemsFuel (x :: y :: ys) = 1 + pvFuel x + pvItemsFuel (y :: ys) := by
              simp [pvItemsFuel]
            omega
          rw [show serializeItems (x :: y :: ys) =
              serializeVal x ++ ',' :: serializeItems (y :: ys) from by simp [serializeItems]]
          simp only [List.cons_append, List.append_assoc, List.singleton_append, List.nil_append]
          obtain ⟨q1, hq1⟩ := (ih (pvFuel x) hvx).1 x le_rfl st acc
            (',' :: (serializeItems (y :: ys) ++ rest)) hstr hesc hdep
          rw [hq1]
          rw [bsGo_step_no_ret _ _ (bsRet_ne_close (by decide)),
            bsStep_inert (by simp [hstr]) (by decide) (by decide) (by decide)]
          obtain ⟨q2, hq2⟩ := (ih (pvItemsFuel (y :: ys)) hiy).2.1 (y :: ys) le_rfl
            { st with quote := q1 } (acc ++ serializeVal x ++ [','])
            rest (by simp [hstr]) (by simp [hesc]) (by simp [hdep])
          rw [show acc ++ serializeVal x ++ [','] =
              (acc ++ serializeVal x) ++ [','] from by simp, hq2]
          refine ⟨q2, ?_⟩
          simp
    · intro kvs hfl st acc rest hstr hesc hdep
      cases kvs with
      | nil =>
        refine ⟨st.quote, ?_⟩
        rw [bsst_quote_self]
        rw [show serializeMembers [] = ([] : List Char) from by simp [serializeMembers]]
        simp
      | cons kv kvs' =>
        obtain ⟨k, v⟩ := kv
        have hvv : pvFuel v < n := by
          have : pvMembersFuel ((k, v) :: kvs') = 1 + pvFuel v + pvMembersFuel kvs' := by
            simp [pvMembersFuel]
          omega
        cases kvs' with
        | nil =>
          rw [show serializeMembers [(k, v)] =
              '"' :: escapeJson k.data ++ '"' :: ':' :: serializeVal v from by
            simp [serializeMembers]]
          simp only [List.cons_append, List.append_assoc, List.singleton_append, List.nil_append]
          rw [bsGo_string k.data st acc (':' :: (serializeVal v ++ rest)) hstr hesc]
          rw [bsGo_step_no_ret _ _ (bsRet_ne_close (by decide)),
            bsStep_inert (by simp [hstr]) (by decide) (by decide) (by decide)]
          obtain ⟨q2, hq2⟩ := (ih (pvFuel v) hvv).1 v le_rfl
            { st with quote := '"' } (acc ++ '"' :: (escapeJson k.data ++ ['"']) ++ [':'])
            rest (by simp [hstr]) (by simp [hesc]) (by simp [hdep])
          rw [show acc ++ '"' :: (escapeJson k.data ++ ['"']) ++ [':'] =
              (acc ++ '"' :: (escapeJson k.data ++ ['"'])) ++ [':'] from by simp, hq2]
          refine ⟨q2, ?_⟩
          simp
        | cons kv2 kvs2 =>
          obtain ⟨k2, v2⟩ := kv2
          have hmm2 : pvMembersFuel ((k2, v2) :: kvs2) < n := by
            have : pvMembersFuel ((k, v) :: (k2, v2) :: kvs2) =
                1 + pvFuel v + pvMembersFuel ((k2, v2) :: kvs2) := by simp [pvMembersFuel]
            omega
          rw [show serializeMembers ((k, v) :: (k2, v2) :: kvs2) =
              '"' :: escapeJson k.data ++ '"' :: ':' ::
                (serializeVal v ++ ',' :: serializeMembers ((k2, v2) :: kvs2)) from by
            simp [serializeMembers]]
          simp only [List.cons_append, List.append_assoc, List.singleton_append, List.nil_append]
          rw [bsGo_string k.data st acc
            (':' :: (serializeVal v ++ ',' :: (serializeMembers ((k2, v2) :: kvs2) ++ rest)))
            hstr hesc]
          rw [bsGo_step_no_ret _ _ (bsRet_ne_close (by decide)),
            bsStep_inert (by simp [hstr]) (by decide) (by decide) (by decide)]
          obtain ⟨q2, hq2⟩ := (ih (pvFuel v) hvv).1 v le_rfl
            { st with quote := '"' } (acc ++ '"' :: (escapeJson k.data ++ ['"']) ++ [':'])
            (',' :: (serializeMembers ((k2, v2) :: kvs2) ++ rest))
            (by simp [hstr]) (by simp [hesc]) (by simp [hdep])
          rw [show acc ++ '"' :: (escapeJson k.data ++ ['"']) ++ [':'] =
              (acc ++ '"' :: (escapeJson k.data ++ ['"'])) ++ [':'] from by simp, hq2]
          rw [bsGo_step_no_ret _ _ (bsRet_ne_close (by decide)),
            bsStep_inert (by simp [hstr]) (by decide) (by decide) (by decide)]
          obtain ⟨q3, hq3⟩ := (ih (pvMembersFuel ((k2, v2) :: kvs2)) hmm2).2.2 ((k2, v2) :: kvs2)
            le_rfl { ({ st with quote := '"' } : BSSt) with quote := q2 }
            ((acc ++ '"' :: (escapeJson k.data ++ ['"'])) ++ [':'] ++ serializeVal v ++ [','])
            rest (by simp [hstr]) (by simp [hesc]) (by simp [hdep])
          rw [show (acc ++ '"' :: (escapeJson k.data ++ ['"'])) ++ [':'] ++ serializeVal v ++ [','] =
              ((acc ++ '"' :: (escapeJson k.data ++ ['"'])) ++ [':'] ++ serializeVal v) ++ [','] from by
            simp, hq3]
          refine ⟨q3, ?_⟩
          simp

end Extract
namespace Extract

theorem bsGo_ret {st : BSSt} {ch : Char} (acc rest : List Char)
    (hr : bsRet ']' st ch = true) :
    bsGo '[' ']' st acc (ch :: rest) = some (acc ++ [ch]) := by
  rw [bsGo, if_pos hr]

theorem pvFuel_le_len : ∀ n : Nat,
    (∀ v : PyVal, pvFuel v ≤ n → pvFuel v ≤ (serializeVal v).length) ∧
    (∀ xs : List PyVal, pvItemsFuel xs ≤ n → pvItemsFuel xs ≤ 1 + (serializeItems xs).length) ∧
    (∀ kvs : List (String × PyVal), pvMembersFuel kvs ≤ n →
      pvMembersFuel kvs ≤ 1 + (serializeMembers kvs).length) := by
  intro n
  induction n using Nat.strong_induction_on with
  | _ n ih =>
    refine ⟨?_, ?_, ?_⟩
    · intro v hfl
      cases v with
      | none => simp [pvFuel, serializeVal]
      | bool b => cases b <;> simp [pvFuel, serializeVal]
      | int m =>
        have hne : intDigits m ≠ [] := by
          rw [intDigits]
          by_cases hm : m < 0
          · rw [if_pos hm]
            simp
          · rw [if_neg hm]
            exact (natDigits_spec _).1
        have hlen : 0 < (intDigits m).length := List.length_pos.mpr hne
        have h1 : pvFuel (PyVal.int m) = 1 := by simp [pvFuel]
        have h2 : (serializeVal (PyVal.int m)).length = (intDigits m).length := by
          simp [serializeVal]
        omega
      | str s =>
        have h1 : pvFuel (PyVal.str s) = 1 := by simp [pvFuel]
        have h2 : (serializeVal (PyVal.str s)).length =
            (escapeJson s.data).length + 2 := by
          simp [serializeVal]
        omega
      | list xs =>
        have hfl' : 1 + pvItemsFuel xs ≤ n := by simpa [pvFuel] using hfl
        have hb := (ih (pvItemsFuel xs) (by omega)).2.1 xs le_rfl
        have h1 : pvFuel (PyVal.list xs) = 1 + pvItemsFuel xs := by simp [pvFuel]
        have h2 : (serializeVal (PyVal.list xs)).length =
            (serializeItems xs).length + 2 := by
          simp [serializeVal]
        omega
      | dict kvs =>
        have hfl' : 1 + pvMembersFuel kvs ≤ n := by simpa [pvFuel] using hfl
        have hb := (ih (pvMembersFuel kvs) (by omega)).2.2 kvs le_rfl
        have h1 : pvFuel (PyVal.dict kvs) = 1 + pvMembersFuel kvs := by simp [pvFuel]
        have h2 : (serializeVal (PyVal.dict kvs)).length =
            (serializeMembers kvs).length + 2 := by
          simp [serializeVal]
        omega
    · intro xs hfl
      cases xs with
      | nil => simp [pvItemsFuel, serializeItems]
      | cons x xs' =>
        have hfl' : 1 + pvFuel x + pvItemsFuel xs' ≤ n := by simpa [pvItemsFuel] using hfl
        have hvx := (ih (pvFuel x) (by omega)).1 x le_rfl
        have h1 : pvItemsFuel (x :: xs') = 1 + pvFuel x + pvItemsFuel xs' := by
          simp [pvItemsFuel]
        cases xs' with
        | nil =>
          have h2 : serializeItems [x] = serializeVal x := by simp [serializeItems]
          have h3 : pvItemsFuel ([] : List PyVal) = 0 := by simp [pvItemsFuel]
          rw [h1, h2, h3]
          omega
        | cons y ys =>
          have hp := pvFuel_pos x
          have hys := (ih (pvItemsFuel (y :: ys)) (by omega)).2.1 (y :: ys) le_rfl
          have h2 : (serializeItems (x :: y :: ys)).length =
              (serializeVal x).length + 1 + (serializeItems (y :: ys)).length := by
            rw [show serializeItems (x :: y :: ys) =
                serializeVal x ++ ',' :: serializeItems (y :: ys) from by simp [serializeItems]]
            simp
            omega
          rw [h1, h2]
          omega
    · intro kvs hfl
      cases kvs with
      | nil => simp [pvMembersFuel, serializeMembers]
      | cons kv kvs' =>
        obtain ⟨k, v⟩ := kv
        have hfl' : 1 + pvFuel v + pvMembersFuel kvs' ≤ n := by simpa [pvMembersFuel] using hfl
        have hvv := (ih (pvFuel v) (by omega)).1 v le_rfl
        have h1 : pvMembersFuel ((k, v) :: kvs') = 1 + pvFuel v + pvMembersFuel kvs' := by
          simp [pvMembersFuel]
        cases kvs' with
        | nil =>
          have h2 : (serializeMembers [(k, v)]).length =
              (escapeJson k.data).length + 3 + (serializeVal v).length := by
            rw [show serializeMembers [(k, v)] =
                '"' :: escapeJson k.data ++ '"' :: ':' :: serializeVal v from by
              simp [serializeMembers]]
            simp
            omega
          have h3 : pvMembersFuel ([] : List (String × PyVal)) = 0 := by simp [pvMembersFuel]
          rw [h1, h2, h3]
          omega
        | cons kv2 kvs2 =>
          obtain ⟨k2, v2⟩ := kv2
          have hp := pvFuel_pos v
          have hys := (ih (pvMembersFuel ((k2, v2) :: kvs2)) (by omega)).2.2
            ((k2, v2) :: kvs2) le_rfl
          have h2 : (serializeMembers ((k, v) :: (k2, v2) :: kvs2)).length =
              (escapeJson k.data).length + 4 + (serializeVal v).length +
                (serializeMembers ((k2, v2) :: kvs2)).length := by
            rw [show serializeMembers ((k, v) :: (k2, v2) :: kvs2) =
                '"' :: escapeJson k.data ++ '"' :: ':' :: serializeVal v ++
                  ',' :: serializeMembers ((k2, v2) :: kvs2) from by simp [serializeMembers]]
            simp
            omega
          rw [h1, h2]
          omega

theorem parseJsonText_serialize (v : PyVal) (h : pvSafe v = true) :
    parseJsonText (serializeVal v) = some v := by
  have hfl : pvFuel v ≤ (serializeVal v).length + 1 := by
    have := (pvFuel_le_len (pvFuel v)).1 v le_rfl
    omega
  have hp := (parse_roundtrip ((serializeVal v).length + 1)).1 v [] h (Or.inl rfl) hfl
  rw [show serializeVal v ++ ([] : List Char) = serializeVal v from by simp] at hp
  rw [parseJsonText, hp]
  simp [skipWs]

theorem balanced_slice_serialize (xs : List PyVal) :
    _balanced_slice (serializeVal (PyVal.list xs)) 0 '[' ']' =
      some (serializeVal (PyVal.list xs)) := by
  obtain ⟨q, hq⟩ := (bsGo_scan (pvItemsFuel xs)).2.1 xs le_rfl
    ⟨1, false, false, ' '⟩ ['['] [']'] rfl rfl (by norm_num)
  rw [_balanced_slice, List.drop_zero]
  rw [show serializeVal (PyVal.list xs) = '[' :: (serializeItems xs ++ [']']) from by
    simp [serializeVal]]
  rw [bsGo_step_no_ret _ _ (bsRet_ne_close (by decide))]
  rw [show bsStep '[' ']' bsInit '[' = (⟨1, false, false, ' '⟩ : BSSt) from by decide]
  rw [show ([] : List Char) ++ ['['] = ['['] from rfl]
  rw [hq]
  rw [bsGo_ret _ _ (by simp [bsRet])]
  simp

end Extract
namespace Extract

/-- C1 (counterexample): `[1,2,3]` is valid strict-JSON text — its strict
parse succeeds, yielding the list 1, 2, 3 — yet the Candidate Reader's
strategy (b) yields nothing on it: the balanced slice at the single `[`
position is the whole text, but it contains no `\x7b` and no quoted-key
evidence, so both of the code's filters reject it before the strict
parse is ever attempted. -/
theorem candidate_strategy_b_counterexample :
    parseJsonText "[1,2,3]".data =
      some (PyVal.list [PyVal.int 1, PyVal.int 2, PyVal.int 3]) ∧
    candidate_jsons_strategy_b "[1,2,3]".data = [] :=
  ⟨rfl, rfl⟩

/-- C1 (amended): for every strict-JSON array text (generated by the
serializer from a control-character-free value) that contains at least
one `\x7b` and matches the quoted-key-evidence regex of extract.py:257,
strategy (b) of the Candidate Reader yields the text's parsed value:
the balanced slice at the leading `[` is the whole text, the two
filters pass, and the strict parse returns the original value. -/
theorem candidate_strategy_b_amended (xs : List PyVal)
    (hsafe : pvSafe (PyVal.list xs) = true)
    (hbrace : countChar '\x7b' (serializeVal (PyVal.list xs)) ≠ 0)
    (hkey : hasKeyEvidence (serializeVal (PyVal.list xs)) = true) :
    PyVal.list xs ∈ candidate_jsons_strategy_b (serializeVal (PyVal.list xs)) := by
  have hser : serializeVal (PyVal.list xs) = '[' :: (serializeItems xs ++ [']']) := by
    simp [serializeVal]
  have hlen : 0 < (serializeVal (PyVal.list xs)).length := by
    rw [hser]
    simp
  have hget : ((serializeVal (PyVal.list xs)).getD 0 ' ' == '[') = true := by
    rw [hser]
    rfl
  rw [candidate_jsons_strategy_b]
  refine List.mem_filterMap.mpr
    ⟨0, List.mem_filter.mpr ⟨List.mem_range.mpr hlen, hget⟩, ?_⟩
  dsimp only
  rw [balanced_slice_serialize xs]
  dsimp only
  rw [if_neg (by rw [hser]; simp)]
  rw [if_neg (by simpa using hbrace)]
  rw [if_neg (by simp [hkey])]
  exact parseJsonText_serialize _ hsafe

/-- C1 witness: the one-element array of the object with key `a` and
value 1 is safe, its serialization contains a `\x7b` and shows key
evidence, and strategy (b) indeed recovers it from its serialization. -/
theorem candidate_strategy_b_amended_witness :
    pvSafe (PyVal.list [PyVal.dict [("a", PyVal.int 1)]]) = true ∧
    countChar '\x7b' (serializeVal (PyVal.list [PyVal.dict [("a", PyVal.int 1)]])) ≠ 0 ∧
    hasKeyEvidence (serializeVal (PyVal.list [PyVal.dict [("a", PyVal.int 1)]])) = true ∧
    PyVal.list [PyVal.dict [("a", PyVal.int 1)]] ∈
      candidate_jsons_strategy_b
        (serializeVal (PyVal.list [PyVal.dict [("a", PyVal.int 1)]])) := by
  have hd : ("a".data : List Char) = ['a'] := rfl
  have hesc : escapeJson ['a'] = ['a'] := rfl
  have hint : intDigits 1 = ['1'] := rfl
  have hser : serializeVal (PyVal.list [PyVal.dict [("a", PyVal.int 1)]]) =
      ['[', '\x7b', '"', 'a', '"', ':', '1', '\x7d', ']'] := by
    simp [serializeVal, serializeItems, serializeMembers, hd, hesc, hint]
  have h1 : pvSafe (PyVal.list [PyVal.dict [("a", PyVal.int 1)]]) = true := by
    simp [pvSafe, pvListSafe, pvMembersSafe]
  have h2 : countChar '\x7b'
      (serializeVal (PyVal.list [PyVal.dict [("a", PyVal.int 1)]])) ≠ 0 := by
    rw [hser]
    decide
  have h3 : hasKeyEvidence
      (serializeVal (PyVal.list [PyVal.dict [("a", PyVal.int 1)]])) = true := by
    rw [hser]
    decide
  exact ⟨h1, h2, h3, candidate_strategy_b_amended _ h1 h2 h3⟩

end Extract
